import Mathlib

/-!
Shallow embedding of the routing server of `fapra_osm` (`src/server.rs`).

Conventions of the embedding:
* Rust `f64` values (lengths, speeds, costs, coordinates) are modelled as `ℚ`.
* Fallible operations (vector indexing, `Option::unwrap`, slice bounds,
  `assert!`) are modelled in the `Except String` monad; `Except.error`
  models a panic.
* The unbounded `while`/`loop` constructs are modelled with an explicit
  fuel parameter; running out of fuel yields `Except.error "nontermination"`.
* Rust's `BinaryHeap` of `HeapEntry` (whose `Ord` instance compares purely
  by cost, reversed, so `pop` yields a minimum-cost entry with arbitrary
  tie-breaking) is modelled as a list with a deterministic minimum-extraction
  function `popMin`.
-/

/-- Geographic position. Modelled from the spec: §3 `Node.position`
(latitude, longitude); the `data` module defining it is not among the
given sources. -/
structure Position where
  lat : ℚ
  lon : ℚ
deriving DecidableEq, Repr

/-- Entry of the id index. Modelled from the spec: §3 `id_index` maps an
external (OSM) id to `{internal_index, position}`; the `data` module defining
it is not among the given sources. The field names follow the uses in
`server.rs` (`.internal_id`, `.position`). -/
structure OsmNode where
  internal_id : Nat
  position : Position
deriving DecidableEq, Repr

/-- A directed edge. Modelled from the spec: §3 Edge (`target`, `length`,
`speed`, `allowed_modes`); the field names follow the uses in `server.rs`
(`.target`, `.length`, `.speed`, `.constraints`). -/
structure RoutingEdge where
  target : Nat
  length : ℚ
  speed : ℚ
  constraints : Nat
deriving DecidableEq, Repr

/-- The graph store. Modelled from the spec: §3 Graph Store (`nodes`,
`edges`, `offsets`, `id_index`); the field names follow the uses in
`server.rs`. `internal_nodes` maps an internal index to its external OSM id,
`osm_nodes` is the id index, modelled as an association list. -/
structure RoutingData where
  internal_nodes : List Int
  internal_edges : List RoutingEdge
  internal_offset : List Nat
  osm_nodes : List (Int × OsmNode)
deriving DecidableEq, Repr

/-- Modelled from the spec: §3 travel modes have a single-bit mask each. -/
def FLAG_CAR : Nat := 1

/-- Modelled from the spec: §3 travel modes have a single-bit mask each. -/
def FLAG_BIKE : Nat := 2

/-- Modelled from the spec: §3 travel modes have a single-bit mask each. -/
def FLAG_WALK : Nat := 4

/-- Rust vector indexing `v[i]`: panics (here: errors) when out of bounds. -/
def idx? {α : Type} (l : List α) (i : Nat) : Except String α :=
  match l.get? i with
  | some a => Except.ok a
  | none => Except.error "index out of bounds"

/-- `HashMap::get` on the id index (association-list model). -/
def mapGet? : List (Int × OsmNode) → Int → Option OsmNode
  | [], _ => none
  | p :: rest, k => if p.fst = k then some p.snd else mapGet? rest k

/-- `struct HeapEntry { node: usize, cost: f64 }` from `server.rs`. -/
structure HeapEntry where
  node : Nat
  cost : ℚ
deriving DecidableEq, Repr

/-- `struct Route { distance: f64, time: f64, path: Vec<[f64; 2]> }`
from `server.rs`; a path entry `[lat, lon]` is modelled as a pair. -/
structure Route where
  distance : ℚ
  time : ℚ
  path : List (ℚ × ℚ)
deriving DecidableEq, Repr

/-- `BinaryHeap::pop` for `HeapEntry`: the `Ord` instance in `server.rs`
compares purely by cost (reversed), so `pop` removes and returns a
minimum-cost entry. The model deterministically takes the leftmost one. -/
def popMin : List HeapEntry → Option (HeapEntry × List HeapEntry)
  | [] => none
  | e :: es =>
    match popMin es with
    | none => some (e, [])
    | some (m, rest) => if e.cost ≤ m.cost then some (e, es) else some (m, e :: rest)

/-- `fn edge_cost_distance` from `server.rs`. -/
def edge_cost_distance (edge : RoutingEdge) (_vspeed : ℚ) : ℚ :=
  edge.length

/-- `fn edge_cost_time` from `server.rs`: caps the edge speed at the
vehicle's maximum before dividing. -/
def edge_cost_time (edge : RoutingEdge) (vspeed : ℚ) : ℚ :=
  let speed := edge.speed
  let speed := if vspeed < speed then vspeed else speed
  edge.length / speed

/-- `fn offset_lookup` from `server.rs`, including both `assert!`s and the
panicking vector indexing. -/
def offset_lookup (node : Nat) (data : RoutingData) : Except String (Nat × Nat) :=
  match idx? data.internal_offset node with
  | Except.error e => Except.error e
  | Except.ok start =>
    match idx? data.internal_offset (data.internal_offset.length - 1) with
    | Except.error e => Except.error e
    | Except.ok max_end =>
      if node + 1 > data.internal_offset.length - 1 then
        if start ≤ max_end then Except.ok (start, max_end)
        else Except.error "invalid offset lookup max!"
      else
        match idx? data.internal_offset (node + 1) with
        | Except.error e => Except.error e
        | Except.ok stop =>
          if start ≤ stop then Except.ok (start, stop)
          else Except.error "invalid offset lookup!"

/-- Rust slice `&edges[s..e]`: panics (here: errors) unless `s ≤ e ≤ len`. -/
def sliceE (edges : List RoutingEdge) (s e : Nat) : Except String (List RoutingEdge) :=
  if s ≤ e ∧ e ≤ edges.length then Except.ok ((edges.drop s).take (e - s))
  else Except.error "slice index out of range"

/-- The mutable per-query state of `run_dijkstra`. -/
structure DijkState where
  heap : List HeapEntry
  dist : List (Option ℚ)
  pred : List Nat
  prede : List Nat
deriving Repr

/-- `neighbor.cost < distance[neighbor.node]` where `none` models `f64::INFINITY`. -/
def ltD (c : ℚ) : Option ℚ → Bool
  | none => true
  | some d => decide (c < d)

/-- `cost > distance[node]` where `none` models `f64::INFINITY`. -/
def gtD (c : ℚ) : Option ℚ → Bool
  | none => false
  | some d => decide (c > d)

/-- The inner `for (i, edge) in edges.iter().enumerate()` loop of
`run_dijkstra`: the list holds the flat edge index (`i + start` in Rust)
paired with the edge. -/
def relaxEdges (constraints : Nat) (cost_func : RoutingEdge → ℚ → ℚ) (vspeed : ℚ)
    (node : Nat) (cost : ℚ) :
    List (Nat × RoutingEdge) → DijkState → Except String DijkState
  | [], st => Except.ok st
  | (i, edge) :: rest, st =>
    if constraints &&& edge.constraints = 0 then
      relaxEdges constraints cost_func vspeed node cost rest st
    else
      match idx? st.dist edge.target with
      | Except.error e => Except.error e
      | Except.ok dcur =>
        if ltD (cost + cost_func edge vspeed) dcur then
          relaxEdges constraints cost_func vspeed node cost rest
            { heap := { node := edge.target, cost := cost + cost_func edge vspeed } :: st.heap,
              dist := st.dist.set edge.target (some (cost + cost_func edge vspeed)),
              pred := st.pred.set edge.target node,
              prede := st.prede.set edge.target i }
        else
          relaxEdges constraints cost_func vspeed node cost rest st

/-- The `loop` of `fn build_route` from `server.rs`: walks the predecessor
arrays back from `target` until `source` is reached, accumulating distance,
capped-speed time, and positions (appended in walk order). -/
def buildRouteLoop (data : RoutingData) (vspeed : ℚ) (source : Nat)
    (predecessor predecessor_edge : List Nat) :
    Nat → Nat → Nat → Route → Except String Route
  | 0, _, _, _ => Except.error "nontermination"
  | fuel + 1, node, edge, result =>
    if node = source then Except.ok result
    else
      match idx? data.internal_nodes node with
      | Except.error e => Except.error e
      | Except.ok osm_id =>
        match mapGet? data.osm_nodes osm_id with
        | none => Except.error "called Option.unwrap on a None value"
        | some osmn =>
          match idx? data.internal_edges edge with
          | Except.error e => Except.error e
          | Except.ok eg =>
            let speed := if vspeed < eg.speed then vspeed else eg.speed
            let result' : Route :=
              { distance := result.distance + eg.length,
                time := result.time + eg.length / speed,
                path := result.path ++ [(osmn.position.lat, osmn.position.lon)] }
            match idx? predecessor node with
            | Except.error e => Except.error e
            | Except.ok node' =>
              match idx? predecessor_edge node' with
              | Except.error e => Except.error e
              | Except.ok edge' =>
                buildRouteLoop data vspeed source predecessor predecessor_edge fuel
                  node' edge' result'

/-- `fn build_route` from `server.rs`. Its only `return` is `Some(result)`;
the `Except` layer models panics, the fuel models the unbounded `loop`. -/
def build_route (bfuel : Nat) (source target : Nat)
    (predecessor predecessor_edge : List Nat)
    (data : RoutingData) (vspeed : ℚ) : Except String (Option Route) :=
  match idx? predecessor_edge target with
  | Except.error e => Except.error e
  | Except.ok edge0 =>
    match buildRouteLoop data vspeed source predecessor predecessor_edge bfuel target edge0
      { distance := 0, time := 0, path := [] } with
    | Except.error e => Except.error e
    | Except.ok r => Except.ok (some { r with path := r.path.reverse })

/-- The `while let Some(HeapEntry { node, cost }) = heap.pop()` loop of
`run_dijkstra`. -/
def dijkstraLoop (data : RoutingData) (constraints : Nat)
    (cost_func : RoutingEdge → ℚ → ℚ) (vspeed : ℚ) (source target : Nat) (bfuel : Nat) :
    Nat → DijkState → Except String (Option Route)
  | 0, _ => Except.error "nontermination"
  | fuel + 1, st =>
    match popMin st.heap with
    | none => Except.ok none
    | some (entry, heap') =>
      if entry.node = target then
        build_route bfuel source target st.pred st.prede data vspeed
      else
        match idx? st.dist entry.node with
        | Except.error e => Except.error e
        | Except.ok dn =>
          if gtD entry.cost dn then
            dijkstraLoop data constraints cost_func vspeed source target bfuel fuel
              { st with heap := heap' }
          else
            match offset_lookup entry.node data with
            | Except.error e => Except.error e
            | Except.ok se =>
              match sliceE data.internal_edges se.fst se.snd with
              | Except.error e => Except.error e
              | Except.ok slice =>
                match relaxEdges constraints cost_func vspeed entry.node entry.cost
                  ((List.range' se.fst (se.snd - se.fst)).zip slice)
                  { st with heap := heap' } with
                | Except.error e => Except.error e
                | Except.ok st' =>
                  dijkstraLoop data constraints cost_func vspeed source target bfuel fuel st'

/-- The `vspeed` selection at the top of `run_dijkstra`
(km/h constants divided by 3.6). -/
def vspeed_of (constraints : Nat) : ℚ :=
  if constraints = FLAG_CAR then 130 / (36 / 10)
  else if constraints = FLAG_BIKE then 15 / (36 / 10)
  else if constraints = FLAG_WALK then 5 / (36 / 10)
  else 130 / (36 / 10)

/-- `fn run_dijkstra` from `server.rs`. The two `unwrap()`s on the id-index
lookups become `Except.error` (a panic) when an endpoint id is unknown;
`distance[source] = 0.0` panics when the resolved source index is out of
bounds. `fuel` bounds the outer loop, `bfuel` the `build_route` loop. -/
def run_dijkstra (fuel bfuel : Nat) (data : RoutingData) (source_osm target_osm : Int)
    (constraints : Nat) (cost_func : RoutingEdge → ℚ → ℚ) : Except String (Option Route) :=
  let vspeed := vspeed_of constraints
  match mapGet? data.osm_nodes source_osm with
  | none => Except.error "called Option.unwrap on a None value"
  | some sn =>
    match mapGet? data.osm_nodes target_osm with
    | none => Except.error "called Option.unwrap on a None value"
    | some tn =>
      let n := data.internal_nodes.length
      if sn.internal_id < n then
        dijkstraLoop data constraints cost_func vspeed sn.internal_id tn.internal_id bfuel fuel
          { heap := [{ node := sn.internal_id, cost := 0 }],
            dist := (List.replicate n (none : Option ℚ)).set sn.internal_id (some 0),
            pred := List.replicate n 0,
            prede := List.replicate n 0 }
      else Except.error "index out of bounds"

/-- The metric selection of `fn get_route` from `server.rs`: the raw query
value defaults to `"time"` when the parameter is absent (`unwrap_or("time")`),
and the `match` sends unrecognized names to `edge_cost_distance`. -/
def get_route_metric (metric_query : Option String) : RoutingEdge → ℚ → ℚ :=
  let metric_raw := metric_query.getD "time"
  if metric_raw = "time" then edge_cost_time
  else if metric_raw = "distance" then edge_cost_distance
  else edge_cost_distance

/-- The vehicle selection of `fn get_route` from `server.rs`: the raw query
value defaults to `"car"`, and unrecognized names fall back to `FLAG_CAR`. -/
def get_route_vehicle (vehicle_query : Option String) : Nat :=
  let vehicle_raw := vehicle_query.getD "car"
  if vehicle_raw = "car" then FLAG_CAR
  else if vehicle_raw = "bike" then FLAG_BIKE
  else if vehicle_raw = "walk" then FLAG_WALK
  else FLAG_CAR

/-- The concrete 4-node graph of spec §8: nodes A,B,C,D with OSM ids 1..4,
internal indices 0..3, positions A(0,0), B(0,1), C(1,1), D(1,0); edges
A→B (10, 10 m/s, all modes), A→D (5, 1 m/s, car-only), B→C (10, 10 m/s,
all modes), D→C (5, 1 m/s, car-only), packed by source node. -/
def demoGraph : RoutingData :=
  { internal_nodes := [1, 2, 3, 4],
    internal_edges :=
      [ { target := 1, length := 10, speed := 10, constraints := 7 },
        { target := 3, length := 5, speed := 1, constraints := 1 },
        { target := 2, length := 10, speed := 10, constraints := 7 },
        { target := 2, length := 5, speed := 1, constraints := 1 } ],
    internal_offset := [0, 2, 3, 3, 4],
    osm_nodes :=
      [ (1, { internal_id := 0, position := { lat := 0, lon := 0 } }),
        (2, { internal_id := 1, position := { lat := 0, lon := 1 } }),
        (3, { internal_id := 2, position := { lat := 1, lon := 1 } }),
        (4, { internal_id := 3, position := { lat := 1, lon := 0 } }) ] }

/-- `idx?` succeeds exactly on in-bounds indices, returning the element. -/
lemma idx?_eq_ok {α : Type} {l : List α} {i : Nat} {a : α} :
    idx? l i = Except.ok a ↔ l.get? i = some a := by
  unfold idx?
  cases h : l.get? i <;> simp [h]

/-- `idx?` on a replicated list returns the replicated element. -/
lemma idx?_replicate {α : Type} {n i : Nat} {a : α} (h : i < n) :
    idx? (List.replicate n a) i = Except.ok a := by
  rw [idx?_eq_ok]
  simp [List.get?_eq_get, h]

/-- C2 (code evaluation at the failing input): on the §8 demo graph, a query
whose source (resp. target) OSM id is not in the id index makes
`run_dijkstra` panic on `Option::unwrap` — modelled as `Except.error` — rather
than returning an explicit unknown-endpoint result. -/
theorem C2_unknown_endpoint_panics :
    run_dijkstra 20 20 demoGraph 999 3 FLAG_WALK edge_cost_distance =
      Except.error "called Option.unwrap on a None value" ∧
    run_dijkstra 20 20 demoGraph 1 999 FLAG_WALK edge_cost_distance =
      Except.error "called Option.unwrap on a None value" := by
  exact ⟨rfl, rfl⟩

/-- C3 (counterexample): when the metric parameter is absent, `get_route`
does not use the distance cost function — the raw value defaults to
`"time"`, so the time cost function is selected, and the two differ on this
concrete edge (cost 5 vs 10). -/
theorem C3_absent_metric_uses_time_not_distance :
    get_route_metric none { target := 0, length := 10, speed := 2, constraints := 7 } 36 ≠
      edge_cost_distance { target := 0, length := 10, speed := 2, constraints := 7 } 36 := by
  norm_num [get_route_metric, edge_cost_time, edge_cost_distance]

/-- C3 (amended): `"time"` selects the time cost function and `"distance"`
the distance cost function; an *absent* metric parameter defaults to the raw
string `"time"`, hence the time cost function; only *unrecognized* metric
names fall back to the distance cost function. -/
theorem C3_metric_selection (s : String) (h1 : s ≠ "time") (h2 : s ≠ "distance") :
    get_route_metric (some "time") = edge_cost_time ∧
    get_route_metric (some "distance") = edge_cost_distance ∧
    get_route_metric none = edge_cost_time ∧
    get_route_metric (some s) = edge_cost_distance := by
  refine ⟨rfl, rfl, rfl, ?_⟩
  simp [get_route_metric, h1, h2]

/-- C3 witness: the amended selection rule evaluated at the unrecognized
metric name `"speed"`. -/
theorem C3_metric_selection_witness :
    get_route_metric (some "speed") = edge_cost_distance :=
  (C3_metric_selection "speed" (by decide) (by decide)).2.2.2

/-- C6: when the resolved source and target internal indices coincide, the
search pops the source, immediately recognizes it as the target, and the
route builder's loop never executes: the result is distance 0, time 0,
empty path. -/
theorem C6_source_eq_target (f b : Nat) (data : RoutingData) (s t : Int)
    (cons : Nat) (cf : RoutingEdge → ℚ → ℚ) (sn tn : OsmNode)
    (hs : mapGet? data.osm_nodes s = some sn)
    (ht : mapGet? data.osm_nodes t = some tn)
    (heq : sn.internal_id = tn.internal_id)
    (hlt : sn.internal_id < data.internal_nodes.length) :
    run_dijkstra (f + 1) (b + 1) data s t cons cf =
      Except.ok (some { distance := 0, time := 0, path := [] }) := by
  unfold run_dijkstra
  rw [hs, ht]
  simp only [hlt, if_pos]
  unfold dijkstraLoop
  simp only [popMin, heq, if_pos]
  unfold build_route
  rw [idx?_replicate (heq ▸ hlt)]
  unfold buildRouteLoop
  simp [Except.bind, heq]

/-- C6 witness: the A-to-A query on the §8 demo graph. -/
theorem C6_source_eq_target_witness :
    run_dijkstra 1 1 demoGraph 1 1 FLAG_CAR edge_cost_distance =
      Except.ok (some { distance := 0, time := 0, path := [] }) :=
  C6_source_eq_target 0 0 demoGraph 1 1 FLAG_CAR edge_cost_distance
    { internal_id := 0, position := { lat := 0, lon := 0 } }
    { internal_id := 0, position := { lat := 0, lon := 0 } }
    rfl rfl rfl (by decide)

/-- `offset_lookup` at an in-range node of a well-formed offset table takes
the in-range branch, passes its assertion, and returns the node's slice
bounds `(offsets[i], offsets[i+1])`. -/
lemma offset_lookup_ok (d : RoutingData) (i : Nat)
    (hlen : d.internal_offset.length = d.internal_nodes.length + 1)
    (hmono : List.Pairwise (· ≤ ·) d.internal_offset)
    (hi : i < d.internal_nodes.length) :
    ∃ a b, d.internal_offset.get? i = some a ∧ d.internal_offset.get? (i + 1) = some b ∧
      a ≤ b ∧ offset_lookup i d = Except.ok (a, b) := by
  have hi1 : i + 1 < d.internal_offset.length := by omega
  have hi0 : i < d.internal_offset.length := by omega
  refine ⟨d.internal_offset.get ⟨i, hi0⟩, d.internal_offset.get ⟨i + 1, hi1⟩,
    List.get?_eq_get hi0, List.get?_eq_get hi1, ?_, ?_⟩
  · exact List.pairwise_iff_get.mp hmono ⟨i, hi0⟩ ⟨i + 1, hi1⟩ (by simp)
  · unfold offset_lookup
    rw [idx?_eq_ok.mpr (List.get?_eq_get hi0)]
    have hmax : d.internal_offset.length - 1 < d.internal_offset.length := by omega
    rw [idx?_eq_ok.mpr (List.get?_eq_get hmax)]
    have hbranch : ¬ (i + 1 > d.internal_offset.length - 1) := by omega
    simp only [Except.bind, hbranch, if_neg, not_false_eq_true]
    rw [idx?_eq_ok.mpr (List.get?_eq_get hi1)]
    have hle : d.internal_offset.get ⟨i, hi0⟩ ≤ d.internal_offset.get ⟨i + 1, hi1⟩ :=
      List.pairwise_iff_get.mp hmono ⟨i, hi0⟩ ⟨i + 1, hi1⟩ (by simp)
    simp only [List.get_eq_getElem] at hle
    simp [hle]

/-- C9: with a non-decreasing offset table of length `|nodes| + 1` whose last
entry is the edge count, `offset_lookup` at any internal index `i < |nodes|`
takes the in-range branch, its assertion holds, and it returns exactly
`(offsets[i], offsets[i+1])`. -/
theorem C9_offset_lookup (d : RoutingData) (i : Nat)
    (hlen : d.internal_offset.length = d.internal_nodes.length + 1)
    (hmono : List.Chain' (· ≤ ·) d.internal_offset)
    (hlast : d.internal_offset.get? (d.internal_offset.length - 1) =
      some d.internal_edges.length)
    (hi : i < d.internal_nodes.length) :
    ∃ a b, d.internal_offset.get? i = some a ∧ d.internal_offset.get? (i + 1) = some b ∧
      a ≤ b ∧ offset_lookup i d = Except.ok (a, b) :=
  offset_lookup_ok d i hlen (List.chain'_iff_pairwise.mp hmono) hi

/-- C9 witness: node 2 of the §8 demo graph has the empty slice `(3, 3)`. -/
theorem C9_offset_lookup_witness :
    ∃ a b, demoGraph.internal_offset.get? 2 = some a ∧
      demoGraph.internal_offset.get? 3 = some b ∧
      a ≤ b ∧ offset_lookup 2 demoGraph = Except.ok (a, b) :=
  C9_offset_lookup demoGraph 2 (by decide) (by simp [demoGraph, List.chain'_cons])
    (by decide) (by decide)

/-- The capping `if` of `edge_cost_time` and `build_route` computes the
minimum of the edge speed and the vehicle maximum. -/
lemma cap_speed_eq_min (s v : ℚ) : (if v < s then v else s) = min s v := by
  rcases lt_or_le v s with h | h
  · rw [if_pos h, min_eq_right h.le]
  · rw [if_neg (not_lt.mpr h), min_eq_left h]

/-- C5: the time cost function computes `length / min(speed, vmax)`; when
`vmax < speed` this is `length / vmax`; and one step of the route builder's
loop adds exactly `length / min(speed, vmax)` to the accumulated time (and
`length` to the distance), for any metric the search used — the route
builder takes no cost function at all. -/
theorem C5_time_capped (eg : RoutingEdge) (v : ℚ) :
    edge_cost_time eg v = eg.length / min eg.speed v ∧
    (v < eg.speed → edge_cost_time eg v = eg.length / v) ∧
    ∀ (data : RoutingData) (source : Nat) (pred prede : List Nat)
      (fuel node edge : Nat) (acc : Route) (osm_id : Int) (osmn : OsmNode),
      node ≠ source →
      idx? data.internal_nodes node = Except.ok osm_id →
      mapGet? data.osm_nodes osm_id = some osmn →
      idx? data.internal_edges edge = Except.ok eg →
      buildRouteLoop data v source pred prede (fuel + 1) node edge acc =
        (match idx? pred node with
         | Except.error e => Except.error e
         | Except.ok node' =>
           match idx? prede node' with
           | Except.error e => Except.error e
           | Except.ok edge' =>
             buildRouteLoop data v source pred prede fuel node' edge'
               { distance := acc.distance + eg.length,
                 time := acc.time + eg.length / min eg.speed v,
                 path := acc.path ++ [(osmn.position.lat, osmn.position.lon)] }) := by
  refine ⟨?_, ?_, ?_⟩
  · simp only [edge_cost_time, cap_speed_eq_min]
  · intro h
    simp only [edge_cost_time, cap_speed_eq_min, min_eq_right h.le]
  · intro data source pred prede fuel node edge acc osm_id osmn hne hn hm he
    simp only [buildRouteLoop, if_neg hne, hn, hm, he, cap_speed_eq_min]

/-- C5 witness: one step of the route builder on the §8 demo graph, walking
node B (internal index 1) reached through edge 0, with the walk vehicle
maximum 25/18 m/s. -/
theorem C5_time_capped_witness :
    buildRouteLoop demoGraph (25 / 18) 0 [0, 0, 0, 0] [0, 0, 0, 0] 1 1 0
      { distance := 0, time := 0, path := [] } =
    (match idx? [0, 0, 0, 0] 1 with
     | Except.error e => Except.error e
     | Except.ok node' =>
       match idx? [0, 0, 0, 0] node' with
       | Except.error e => Except.error e
       | Except.ok edge' =>
         buildRouteLoop demoGraph (25 / 18) 0 [0, 0, 0, 0] [0, 0, 0, 0] 0 node' edge'
           { distance := 0 + (10 : ℚ),
             time := 0 + (10 : ℚ) / min 10 (25 / 18),
             path := [] ++ [((0 : ℚ), (1 : ℚ))] }) :=
  (C5_time_capped { target := 1, length := 10, speed := 10, constraints := 7 }
      (25 / 18)).2.2 demoGraph 0 [0, 0, 0, 0] [0, 0, 0, 0] 0 1 0
    { distance := 0, time := 0, path := [] } 2
    { internal_id := 1, position := { lat := 0, lon := 1 } }
    (by decide) rfl rfl rfl

/-- Mirror of `dijkstraLoop` that records whether the loop ever pops the
target node (the only way `run_dijkstra` can produce a route). -/
def dijkstraFindsTarget (data : RoutingData) (constraints : Nat)
    (cost_func : RoutingEdge → ℚ → ℚ) (vspeed : ℚ) (target : Nat) :
    Nat → DijkState → Bool
  | 0, _ => false
  | fuel + 1, st =>
    match popMin st.heap with
    | none => false
    | some (entry, heap') =>
      if entry.node = target then true
      else
        match idx? st.dist entry.node with
        | Except.error _ => false
        | Except.ok dn =>
          if gtD entry.cost dn then
            dijkstraFindsTarget data constraints cost_func vspeed target fuel
              { st with heap := heap' }
          else
            match offset_lookup entry.node data with
            | Except.error _ => false
            | Except.ok se =>
              match sliceE data.internal_edges se.fst se.snd with
              | Except.error _ => false
              | Except.ok slice =>
                match relaxEdges constraints cost_func vspeed entry.node entry.cost
                  ((List.range' se.fst (se.snd - se.fst)).zip slice)
                  { st with heap := heap' } with
                | Except.error _ => false
                | Except.ok st' =>
                  dijkstraFindsTarget data constraints cost_func vspeed target fuel st'

/-- Whenever `build_route` returns normally it returns `Some` route. -/
lemma build_route_ok_some {b s t : Nat} {pred prede : List Nat} {d : RoutingData}
    {v : ℚ} {r : Option Route} (h : build_route b s t pred prede d v = Except.ok r) :
    ∃ route, r = some route := by
  unfold build_route at h
  split at h
  · exact absurd h (by simp)
  · split at h
    · exact absurd h (by simp)
    · exact ⟨_, (Except.ok.injEq .. ▸ h :).symm⟩

/-- C10: `build_route`'s `Option` is vacuous — a normal return is always
`Some` — and a `None` overall result can only arise from the main loop
exhausting its queue without ever popping the target. -/
theorem C10_option_vacuous :
    (∀ (b s t : Nat) (pred prede : List Nat) (d : RoutingData) (v : ℚ) (r : Option Route),
      build_route b s t pred prede d v = Except.ok r → ∃ route, r = some route) ∧
    (∀ (d : RoutingData) (cons : Nat) (cf : RoutingEdge → ℚ → ℚ) (v : ℚ)
      (s t b fuel : Nat) (st : DijkState),
      dijkstraLoop d cons cf v s t b fuel st = Except.ok none →
      dijkstraFindsTarget d cons cf v t fuel st = false) := by
  constructor
  · intro b s t pred prede d v r h
    exact build_route_ok_some h
  · intro d cons cf v s t b fuel
    induction fuel with
    | zero =>
      intro st h
      exact absurd h (by simp [dijkstraLoop])
    | succ n ih =>
      intro st h
      rw [dijkstraLoop] at h
      rw [dijkstraFindsTarget]
      cases hpop : popMin st.heap with
      | none => rfl
      | some pr =>
        obtain ⟨entry, heap'⟩ := pr
        rw [hpop] at h
        dsimp only at h ⊢
        by_cases htgt : entry.node = t
        · rw [if_pos htgt] at h
          obtain ⟨route, hroute⟩ := build_route_ok_some h
          simp at hroute
        · rw [if_neg htgt] at h
          rw [if_neg htgt]
          cases hdn : idx? st.dist entry.node with
          | error e => rw [hdn] at h
          | ok dn =>
            rw [hdn] at h
            dsimp only at h ⊢
            by_cases hstale : gtD entry.cost dn = true
            · rw [if_pos hstale] at h
              rw [if_pos hstale]
              exact ih _ h
            · rw [if_neg hstale] at h
              rw [if_neg hstale]
              cases hse : offset_lookup entry.node d with
              | error e => rw [hse] at h
              | ok se =>
                rw [hse] at h
                dsimp only at h ⊢
                cases hsl : sliceE d.internal_edges se.fst se.snd with
                | error e => rw [hsl] at h
                | ok slice =>
                  rw [hsl] at h
                  dsimp only at h ⊢
                  cases hrx : relaxEdges cons cf v entry.node entry.cost
                    ((List.range' se.fst (se.snd - se.fst)).zip slice)
                    { st with heap := heap' } with
                  | error e => rw [hrx] at h
                  | ok st' =>
                    rw [hrx] at h
                    dsimp only at h ⊢
                    exact ih _ h

/-- C10 witness: on the §8 demo graph, the query from C (OSM id 3, no
outgoing edges) to A exhausts the queue, returns `None`, and indeed never
pops the target. -/
theorem C10_option_vacuous_witness :
    (∃ route, some ({ distance := 0, time := 0, path := [] } : Route) = some route) ∧
    dijkstraFindsTarget demoGraph FLAG_CAR edge_cost_distance (vspeed_of FLAG_CAR) 0 3
      { heap := [{ node := 2, cost := 0 }],
        dist := (List.replicate 4 (none : Option ℚ)).set 2 (some 0),
        pred := List.replicate 4 0,
        prede := List.replicate 4 0 } = false := by
  constructor
  · exact C10_option_vacuous.1 1 0 0 [0] [0, 0] demoGraph 1
      (some { distance := 0, time := 0, path := [] }) rfl
  · refine C10_option_vacuous.2 demoGraph FLAG_CAR edge_cost_distance
      (vspeed_of FLAG_CAR) 2 0 3 3 _ ?_
    rfl

/-- Edge index `i` lies in the packed adjacency slice of node `u`:
`offsets[u] ≤ i < offsets[u+1]`. This is the graph-store notion of "edge `i`
leaves node `u`". -/
def inSlice (d : RoutingData) (u i : Nat) : Prop :=
  ∃ a b, d.internal_offset.get? u = some a ∧ d.internal_offset.get? (u + 1) = some b ∧
    a ≤ i ∧ i < b

/-- `IsPath d cons u v p`: the flat edge indices `p` form a directed path
from `u` to `v` every edge of which permits the requested modes
(`cons &&& e.constraints ≠ 0`). -/
def IsPath (d : RoutingData) (cons : Nat) : Nat → Nat → List Nat → Prop
  | u, v, [] => u = v
  | u, v, i :: rest =>
    ∃ e, d.internal_edges.get? i = some e ∧ inSlice d u i ∧
      cons &&& e.constraints ≠ 0 ∧ IsPath d cons e.target v rest

/-- Cost of a path: the sum of the selected per-edge cost function over its
edges. -/
def pathCost (d : RoutingData) (cf : RoutingEdge → ℚ → ℚ) (vspeed : ℚ)
    (p : List Nat) : ℚ :=
  (p.map fun i =>
    match d.internal_edges.get? i with
    | some e => cf e vspeed
    | none => 0).sum

/-- The node sequence a path visits after its start: the target of each of
its edges, in order. -/
def pathNodes (d : RoutingData) (p : List Nat) : List Nat :=
  p.map fun i =>
    match d.internal_edges.get? i with
    | some e => e.target
    | none => 0

/-- Total physical length of the edges of a path. -/
def sumLen (d : RoutingData) (p : List Nat) : ℚ :=
  (p.map fun i =>
    match d.internal_edges.get? i with
    | some e => e.length
    | none => 0).sum

/-- Total capped-speed travel time of the edges of a path. -/
def sumTime (d : RoutingData) (vspeed : ℚ) (p : List Nat) : ℚ :=
  (p.map fun i =>
    match d.internal_edges.get? i with
    | some e => e.length / min e.speed vspeed
    | none => 0).sum

/-- Geographic positions of a list of internal node indices, in the
`[lat, lon]` form `build_route` emits. -/
def posList (d : RoutingData) (ns : List Nat) : List (ℚ × ℚ) :=
  ns.map fun u =>
    match d.internal_nodes.get? u with
    | some osm =>
      match mapGet? d.osm_nodes osm with
      | some nd => (nd.position.lat, nd.position.lon)
      | none => (0, 0)
    | none => (0, 0)

/-- The §3 graph-store invariants, together with §4.3's guarantee that edge
speeds are positive. All fields are decidable on a concrete graph. -/
structure WF (d : RoutingData) : Prop where
  offlen : d.internal_offset.length = d.internal_nodes.length + 1
  offmono : List.Pairwise (· ≤ ·) d.internal_offset
  offlast : d.internal_offset.get? d.internal_nodes.length = some d.internal_edges.length
  targets : ∀ e ∈ d.internal_edges, e.target < d.internal_nodes.length
  lengths : ∀ e ∈ d.internal_edges, 0 ≤ e.length
  speeds : ∀ e ∈ d.internal_edges, 0 < e.speed
  osm : ∀ osm_id ∈ d.internal_nodes, (mapGet? d.osm_nodes osm_id).isSome = true
  osmids : ∀ pr ∈ d.osm_nodes, pr.snd.internal_id < d.internal_nodes.length

/-- The id-index lookup only returns entries of the index. -/
lemma mapGet?_mem {m : List (Int × OsmNode)} {k : Int} {nd : OsmNode}
    (h : mapGet? m k = some nd) : ∃ kk, (kk, nd) ∈ m := by
  induction m with
  | nil => exact absurd h (by simp [mapGet?])
  | cons p rest ih =>
    rw [mapGet?] at h
    by_cases hk : p.fst = k
    · rw [if_pos hk] at h
      refine ⟨p.fst, ?_⟩
      rw [← Option.some.inj h]
      exact List.mem_cons_self p rest
    · rw [if_neg hk] at h
      obtain ⟨kk, hkk⟩ := ih h
      exact ⟨kk, List.mem_cons_of_mem p hkk⟩

/-- Every stored external id resolves in a well-formed graph. -/
lemma wf_osm_get {d : RoutingData} (wf : WF d) {u : Nat} {osm_id : Int}
    (h : d.internal_nodes.get? u = some osm_id) :
    ∃ nd, mapGet? d.osm_nodes osm_id = some nd :=
  Option.isSome_iff_exists.mp (wf.osm osm_id (List.get?_mem h))

/-- Resolved endpoints of a well-formed graph have in-range internal indices. -/
lemma wf_resolve_lt {d : RoutingData} (wf : WF d) {k : Int} {nd : OsmNode}
    (h : mapGet? d.osm_nodes k = some nd) :
    nd.internal_id < d.internal_nodes.length := by
  obtain ⟨kk, hkk⟩ := mapGet?_mem h
  exact wf.osmids (kk, nd) hkk

lemma popMin_eq_none {l : List HeapEntry} (h : popMin l = none) : l = [] := by
  cases l with
  | nil => rfl
  | cons e es =>
    rw [popMin] at h
    rcases hp : popMin es with - | pr
    · rw [hp] at h
      exact absurd h (by simp)
    · rw [hp] at h
      obtain ⟨m, rest⟩ := pr
      dsimp only at h
      by_cases hc : e.cost ≤ m.cost
      · rw [if_pos hc] at h
        exact absurd h (by simp)
      · rw [if_neg hc] at h
        exact absurd h (by simp)

lemma popMin_perm {l : List HeapEntry} {m : HeapEntry} {rest : List HeapEntry}
    (h : popMin l = some (m, rest)) : l.Perm (m :: rest) := by
  induction l generalizing m rest with
  | nil => exact absurd h (by simp [popMin])
  | cons e es ih =>
    rw [popMin] at h
    rcases hp : popMin es with - | pr
    · rw [hp] at h
      dsimp only at h
      have hinj := Option.some.inj h
      obtain ⟨rfl, rfl⟩ : e = m ∧ ([] : List HeapEntry) = rest :=
        ⟨congrArg Prod.fst hinj, congrArg Prod.snd hinj⟩
      rw [popMin_eq_none hp]
    · rw [hp] at h
      obtain ⟨m', rest'⟩ := pr
      dsimp only at h
      by_cases hc : e.cost ≤ m'.cost
      · rw [if_pos hc] at h
        have hinj := Option.some.inj h
        obtain ⟨rfl, rfl⟩ : e = m ∧ es = rest :=
          ⟨congrArg Prod.fst hinj, congrArg Prod.snd hinj⟩
        exact List.Perm.refl _
      · rw [if_neg hc] at h
        have hinj := Option.some.inj h
        obtain ⟨rfl, rfl⟩ : m' = m ∧ e :: rest' = rest :=
          ⟨congrArg Prod.fst hinj, congrArg Prod.snd hinj⟩
        exact ((ih hp).cons e).trans (List.Perm.swap _ _ _)

lemma popMin_mem {l : List HeapEntry} {m : HeapEntry} {rest : List HeapEntry}
    (h : popMin l = some (m, rest)) : m ∈ l :=
  (popMin_perm h).symm.subset (List.mem_cons_self m rest)

lemma popMin_min {l : List HeapEntry} {m : HeapEntry} {rest : List HeapEntry}
    (h : popMin l = some (m, rest)) : ∀ x ∈ l, m.cost ≤ x.cost := by
  induction l generalizing m rest with
  | nil => exact absurd h (by simp [popMin])
  | cons e es ih =>
    rw [popMin] at h
    rcases hp : popMin es with - | pr
    · rw [hp] at h
      dsimp only at h
      have he : e = m := congrArg Prod.fst (Option.some.inj h)
      subst he
      intro x hx
      rcases List.mem_cons.mp hx with rfl | hx
      · exact le_refl _
      · rw [popMin_eq_none hp] at hx
        exact absurd hx (List.not_mem_nil x)
    · rw [hp] at h
      obtain ⟨m', rest'⟩ := pr
      dsimp only at h
      by_cases hc : e.cost ≤ m'.cost
      · rw [if_pos hc] at h
        have he : e = m := congrArg Prod.fst (Option.some.inj h)
        subst he
        intro x hx
        rcases List.mem_cons.mp hx with rfl | hx
        · exact le_refl _
        · exact le_trans hc (ih hp x hx)
      · rw [if_neg hc] at h
        have he : m' = m := congrArg Prod.fst (Option.some.inj h)
        subst he
        intro x hx
        rcases List.mem_cons.mp hx with rfl | hx
        · exact le_of_lt (lt_of_not_le hc)
        · exact ih hp x hx

lemma IsPath.append {d : RoutingData} {cons : Nat} :
    ∀ {p q : List Nat} {u v w : Nat},
      IsPath d cons u v p → IsPath d cons v w q → IsPath d cons u w (p ++ q) := by
  intro p
  induction p with
  | nil =>
    intro q u v w hp hq
    cases hp
    exact hq
  | cons i rest ih =>
    intro q u v w hp hq
    obtain ⟨e, he, hs, hc, hrest⟩ := hp
    exact ⟨e, he, hs, hc, ih hrest hq⟩

lemma IsPath.snoc {d : RoutingData} {cons : Nat} {p : List Nat} {u v i : Nat}
    {e : RoutingEdge} (hp : IsPath d cons u v p)
    (he : d.internal_edges.get? i = some e) (hs : inSlice d v i)
    (hc : cons &&& e.constraints ≠ 0) :
    IsPath d cons u e.target (p ++ [i]) :=
  hp.append ⟨e, he, hs, hc, rfl⟩

lemma pathCost_nil (d : RoutingData) (cf : RoutingEdge → ℚ → ℚ) (vspeed : ℚ) :
    pathCost d cf vspeed [] = 0 := rfl

lemma pathCost_append (d : RoutingData) (cf : RoutingEdge → ℚ → ℚ) (vspeed : ℚ)
    (p q : List Nat) :
    pathCost d cf vspeed (p ++ q) = pathCost d cf vspeed p + pathCost d cf vspeed q := by
  simp [pathCost]

lemma pathCost_cons (d : RoutingData) (cf : RoutingEdge → ℚ → ℚ) (vspeed : ℚ)
    (i : Nat) (p : List Nat) (e : RoutingEdge) (he : d.internal_edges.get? i = some e) :
    pathCost d cf vspeed (i :: p) = cf e vspeed + pathCost d cf vspeed p := by
  simp only [pathCost, List.map_cons, List.sum_cons, he]

lemma pathCost_nonneg {d : RoutingData} {cf : RoutingEdge → ℚ → ℚ} {vspeed : ℚ}
    (hcf : ∀ e ∈ d.internal_edges, 0 ≤ cf e vspeed) (p : List Nat) :
    0 ≤ pathCost d cf vspeed p := by
  induction p with
  | nil => exact le_refl 0
  | cons i rest ih =>
    have hterm : 0 ≤ (match d.internal_edges.get? i with
        | some e => cf e vspeed
        | none => 0) := by
      cases he : d.internal_edges.get? i with
      | none => exact le_refl 0
      | some e => exact hcf e (List.get?_mem he)
    calc (0 : ℚ) ≤ (match d.internal_edges.get? i with
        | some e => cf e vspeed
        | none => 0) + pathCost d cf vspeed rest := by
          have := add_le_add hterm ih
          simpa using this
      _ = pathCost d cf vspeed (i :: rest) := by simp [pathCost]

lemma pathNodes_append (d : RoutingData) (p q : List Nat) :
    pathNodes d (p ++ q) = pathNodes d p ++ pathNodes d q := by
  simp [pathNodes]

lemma get?_replicate_of_lt {α : Type} {n i : Nat} {a : α} (h : i < n) :
    (List.replicate n a).get? i = some a := by
  simp [List.get?_eq_get, h]

/-- The Dijkstra loop invariant. `S` lists the settled nodes in settlement
order; `st` is the loop state; `src` the resolved source index. -/
structure DInv (d : RoutingData) (cons : Nat) (cf : RoutingEdge → ℚ → ℚ) (vspeed : ℚ)
    (src : Nat) (st : DijkState) (S : List Nat) : Prop where
  distLen : st.dist.length = d.internal_nodes.length
  predLen : st.pred.length = d.internal_nodes.length
  predeLen : st.prede.length = d.internal_nodes.length
  srcLt : src < d.internal_nodes.length
  distSrc : st.dist.get? src = some (some 0)
  sound : ∀ u c, st.dist.get? u = some (some c) →
    ∃ p, IsPath d cons src u p ∧ pathCost d cf vspeed p = c
  predChain : ∀ u c, u ≠ src → st.dist.get? u = some (some c) →
    ∃ w i e cw, st.pred.get? u = some w ∧ st.prede.get? u = some i ∧
      d.internal_edges.get? i = some e ∧ e.target = u ∧ inSlice d w i ∧
      cons &&& e.constraints ≠ 0 ∧ st.dist.get? w = some (some cw) ∧
      cw + cf e vspeed = c ∧ w ∈ S ∧ (u ∈ S → S.indexOf w < S.indexOf u)
  settledIn : ∀ w ∈ S, w < d.internal_nodes.length ∧
    ∃ c, st.dist.get? w = some (some c)
  settledRelaxed : ∀ w ∈ S, ∀ cw, st.dist.get? w = some (some cw) →
    ∀ i e, inSlice d w i → d.internal_edges.get? i = some e →
      cons &&& e.constraints ≠ 0 →
      ∃ cu, st.dist.get? e.target = some (some cu) ∧ cu ≤ cw + cf e vspeed
  heapSound : ∀ en ∈ st.heap, ∃ c, st.dist.get? en.node = some (some c) ∧ c ≤ en.cost
  heapCover : ∀ u c, u ∉ S → st.dist.get? u = some (some c) →
    ({ node := u, cost := c } : HeapEntry) ∈ st.heap
  settledBelow : ∀ w ∈ S, ∀ cw, st.dist.get? w = some (some cw) →
    ∀ en ∈ st.heap, cw ≤ en.cost
  settledStale : ∀ en ∈ st.heap, en.node ∈ S →
    ∀ c, st.dist.get? en.node = some (some c) → c < en.cost
  heapDistinct : List.Pairwise (fun a b : HeapEntry => a.node = b.node → a.cost ≠ b.cost)
    st.heap
  snodup : S.Nodup
  shead : ∀ w, S.get? 0 = some w → w = src

/-- Walking any mode-permitted path that starts inside the settled set
either stays within reach of the current `dist` labels or first leaves the
settled set at a node whose label is at most the cost of the prefix walked
so far. -/
lemma inv_walk {d : RoutingData} {cons : Nat} {cf : RoutingEdge → ℚ → ℚ} {vspeed : ℚ}
    {src : Nat} {st : DijkState} {S : List Nat}
    (inv : DInv d cons cf vspeed src st S)
    (hcf : ∀ e ∈ d.internal_edges, 0 ≤ cf e vspeed) :
    ∀ (p : List Nat) (u v : Nat) (cu : ℚ), IsPath d cons u v p →
      st.dist.get? u = some (some cu) → u ∈ S →
      ∃ w cw, st.dist.get? w = some (some cw) ∧ (w = v ∨ w ∉ S) ∧
        cw ≤ cu + pathCost d cf vspeed p := by
  intro p
  induction p with
  | nil =>
    intro u v cu hp hd _
    obtain rfl : u = v := hp
    exact ⟨u, cu, hd, Or.inl rfl, by simp [pathCost]⟩
  | cons i rest ih =>
    intro u v cu hp hd hu
    obtain ⟨e, he, hs, hc, hrest⟩ := hp
    obtain ⟨ct, hct, hle⟩ := inv.settledRelaxed u hu cu hd i e hs he hc
    by_cases hT : e.target ∈ S
    · obtain ⟨w, cw, hw, hcond, hle2⟩ := ih e.target v ct hrest hct hT
      refine ⟨w, cw, hw, hcond, ?_⟩
      rw [pathCost_cons d cf vspeed i rest e he]
      linarith
    · refine ⟨e.target, ct, hct, Or.inr hT, ?_⟩
      rw [pathCost_cons d cf vspeed i rest e he]
      have hnn := pathCost_nonneg hcf rest
      linarith

/-- On any pop of a minimum-cost entry, the popped node's current label is a
lower bound on the cost of every permitted path from the source to it. -/
lemma pop_optimal {d : RoutingData} {cons : Nat} {cf : RoutingEdge → ℚ → ℚ} {vspeed : ℚ}
    {src : Nat} {st : DijkState} {S : List Nat}
    (inv : DInv d cons cf vspeed src st S)
    (hcf : ∀ e ∈ d.internal_edges, 0 ≤ cf e vspeed)
    {m : HeapEntry} {rest : List HeapEntry} (hpop : popMin st.heap = some (m, rest))
    {c : ℚ} (hd : st.dist.get? m.node = some (some c)) :
    ∀ p, IsPath d cons src m.node p → c ≤ pathCost d cf vspeed p := by
  intro p hp
  have hmem := popMin_mem hpop
  obtain ⟨c', hc', hcm⟩ := inv.heapSound m hmem
  have hcc : c = c' := Option.some.inj (Option.some.inj (hd.symm.trans hc'))
  by_cases hsrc : src ∈ S
  · obtain ⟨w, cw, hw, hcond, hle⟩ :=
      inv_walk inv hcf p src m.node 0 hp inv.distSrc hsrc
    rcases hcond with rfl | hwS
    · have hcwc : cw = c := Option.some.inj (Option.some.inj (hw.symm.trans hd))
      linarith
    · have hcov := inv.heapCover w cw hwS hw
      have hmin : m.cost ≤ cw := popMin_min hpop _ hcov
      linarith
  · have hcov := inv.heapCover src 0 hsrc inv.distSrc
    have hmin : m.cost ≤ 0 := popMin_min hpop _ hcov
    have hnn := pathCost_nonneg hcf p
    linarith

/-- The invariant holds for the initial state built by `run_dijkstra`. -/
lemma inv_init {d : RoutingData} {cons : Nat} {cf : RoutingEdge → ℚ → ℚ} {vspeed : ℚ}
    {src : Nat} (hsrc : src < d.internal_nodes.length) :
    DInv d cons cf vspeed src
      { heap := [{ node := src, cost := 0 }],
        dist := (List.replicate d.internal_nodes.length (none : Option ℚ)).set src (some 0),
        pred := List.replicate d.internal_nodes.length 0,
        prede := List.replicate d.internal_nodes.length 0 } [] := by
  have hdg : ∀ u x, ((List.replicate d.internal_nodes.length (none : Option ℚ)).set src
      (some 0)).get? u = some x → (u = src ∧ x = some 0) ∨ (u ≠ src ∧ x = none) := by
    intro u x hx
    by_cases hu : u = src
    · subst hu
      rw [List.get?_set_eq_of_lt _ (by simpa using hsrc)] at hx
      exact Or.inl ⟨rfl, (Option.some.inj hx).symm⟩
    · rw [List.get?_set_ne _ _ (fun hh => hu hh.symm)] at hx
      have hlt : u < d.internal_nodes.length := by
        by_contra hge
        rw [List.get?_eq_none.mpr (by simpa using Nat.le_of_not_lt hge)] at hx
        exact absurd hx (by simp)
      rw [get?_replicate_of_lt hlt] at hx
      exact Or.inr ⟨hu, (Option.some.inj hx).symm⟩
  refine ⟨?_, ?_, ?_, hsrc, ?_, ?_, ?_, ?_, ?_, ?_, ?_, ?_, ?_, ?_, ?_, ?_⟩
  · simp
  · simp
  · simp
  · rw [List.get?_set_eq_of_lt _ (by simpa using hsrc)]
  · intro u c hx
    rcases hdg u (some c) hx with ⟨rfl, hc⟩ | ⟨-, hc⟩
    · obtain rfl : c = 0 := by simpa using hc
      exact ⟨[], rfl, rfl⟩
    · exact absurd hc (by simp)
  · intro u c hne hx
    rcases hdg u (some c) hx with ⟨rfl, -⟩ | ⟨-, hc⟩
    · exact absurd rfl hne
    · exact absurd hc (by simp)
  · intro w hw
    exact absurd hw (List.not_mem_nil w)
  · intro w hw
    exact absurd hw (List.not_mem_nil w)
  · intro en hen
    rcases List.mem_singleton.mp hen with rfl
    refine ⟨0, ?_, le_refl 0⟩
    rw [List.get?_set_eq_of_lt _ (by simpa using hsrc)]
  · intro u c _ hx
    rcases hdg u (some c) hx with ⟨rfl, hc⟩ | ⟨-, hc⟩
    · obtain rfl : c = 0 := by simpa using hc
      exact List.mem_singleton.mpr rfl
    · exact absurd hc (by simp)
  · intro w hw
    exact absurd hw (List.not_mem_nil w)
  · intro en _ hw
    exact absurd hw (List.not_mem_nil en.node)
  · exact List.pairwise_singleton _ _
  · exact List.nodup_nil
  · intro w hw
    exact absurd hw (by simp)

lemma lt_of_get?_eq_some {α : Type} {l : List α} {i : Nat} {a : α}
    (h : l.get? i = some a) : i < l.length := by
  by_contra hge
  rw [List.get?_eq_none.mpr (Nat.le_of_not_lt hge)] at h
  exact absurd h (by simp)

/-- Elements of the enumerated adjacency slice are genuine edges of the
flat edge array at their recorded flat index, inside the slice bounds. -/
lemma mem_zip_slice {edges : List RoutingEdge} {a b : Nat}
    {ie : Nat × RoutingEdge}
    (hmem : ie ∈ (List.range' a (b - a)).zip ((edges.drop a).take (b - a))) :
    edges.get? ie.fst = some ie.snd ∧ a ≤ ie.fst ∧ ie.fst < b := by
  obtain ⟨k, hk⟩ := List.mem_iff_get?.mp hmem
  rw [List.get?_zip_eq_some] at hk
  obtain ⟨h1, h2⟩ := hk
  have hklt : k < b - a := by
    have := lt_of_get?_eq_some h1
    simpa using this
  rw [List.get?_range' a 1 hklt] at h1
  have hfst : ie.fst = a + k := by
    have := Option.some.inj h1
    omega
  rw [List.get?_take hklt, List.get?_drop] at h2
  refine ⟨?_, by omega, by omega⟩
  rw [hfst]
  exact h2

/-- Conversely, every edge of the slice bounds occurs in the enumerated
adjacency slice at its flat index. -/
lemma inSlice_mem_zip {edges : List RoutingEdge} {a b i : Nat} {e : RoutingEdge}
    (hai : a ≤ i) (hib : i < b) (hb : b ≤ edges.length)
    (he : edges.get? i = some e) :
    (i, e) ∈ (List.range' a (b - a)).zip ((edges.drop a).take (b - a)) := by
  apply List.mem_iff_get?.mpr
  refine ⟨i - a, ?_⟩
  rw [List.get?_zip_eq_some]
  constructor
  · have harith : a + 1 * (i - a) = i := by omega
    rw [List.get?_range' a 1 (by omega), harith]
  · rw [List.get?_take (by omega : i - a < b - a), List.get?_drop]
    have harith : a + (i - a) = i := by omega
    rw [harith]
    exact he

/-- Mid-relaxation invariant: what holds of the state while the freshly
settled node `mnode` (popped at cost `mcost`) has its outgoing edges relaxed
one by one. `S` lists the previously settled nodes; `S ++ [mnode]` is the
new settled list. -/
structure RelaxPre (d : RoutingData) (cons : Nat) (cf : RoutingEdge → ℚ → ℚ)
    (vspeed : ℚ) (src : Nat) (S : List Nat) (mnode : Nat) (mcost : ℚ)
    (st : DijkState) : Prop where
  distLen : st.dist.length = d.internal_nodes.length
  predLen : st.pred.length = d.internal_nodes.length
  predeLen : st.prede.length = d.internal_nodes.length
  srcLt : src < d.internal_nodes.length
  distSrc : st.dist.get? src = some (some 0)
  sound : ∀ u c, st.dist.get? u = some (some c) →
    ∃ p, IsPath d cons src u p ∧ pathCost d cf vspeed p = c
  predChain : ∀ u c, u ≠ src → st.dist.get? u = some (some c) →
    ∃ w i e cw, st.pred.get? u = some w ∧ st.prede.get? u = some i ∧
      d.internal_edges.get? i = some e ∧ e.target = u ∧ inSlice d w i ∧
      cons &&& e.constraints ≠ 0 ∧ st.dist.get? w = some (some cw) ∧
      cw + cf e vspeed = c ∧ w ∈ S ++ [mnode] ∧
      (u ∈ S ++ [mnode] → (S ++ [mnode]).indexOf w < (S ++ [mnode]).indexOf u)
  settledIn : ∀ w ∈ S ++ [mnode], w < d.internal_nodes.length ∧
    ∃ c, st.dist.get? w = some (some c)
  relaxedOld : ∀ w ∈ S, ∀ cw, st.dist.get? w = some (some cw) →
    ∀ i e, inSlice d w i → d.internal_edges.get? i = some e →
      cons &&& e.constraints ≠ 0 →
      ∃ cu, st.dist.get? e.target = some (some cu) ∧ cu ≤ cw + cf e vspeed
  heapSound : ∀ en ∈ st.heap, ∃ c, st.dist.get? en.node = some (some c) ∧ c ≤ en.cost
  heapCover : ∀ u c, u ∉ S ++ [mnode] → st.dist.get? u = some (some c) →
    ({ node := u, cost := c } : HeapEntry) ∈ st.heap
  settledBelow : ∀ w ∈ S ++ [mnode], ∀ cw, st.dist.get? w = some (some cw) →
    ∀ en ∈ st.heap, cw ≤ en.cost
  settledStale : ∀ en ∈ st.heap, en.node ∈ S ++ [mnode] →
    ∀ c, st.dist.get? en.node = some (some c) → c < en.cost
  heapDistinct : List.Pairwise (fun a b : HeapEntry => a.node = b.node → a.cost ≠ b.cost)
    st.heap
  snodup : (S ++ [mnode]).Nodup
  shead : ∀ w, (S ++ [mnode]).get? 0 = some w → w = src
  distM : st.dist.get? mnode = some (some mcost)
  below : ∀ w ∈ S ++ [mnode], ∀ cw, st.dist.get? w = some (some cw) → cw ≤ mcost

/-- Relaxing the enumerated adjacency slice of the freshly settled node:
never panics, preserves the mid-relaxation invariant, relaxes every
mode-permitted edge of the list, pushes at most one heap entry per edge,
and only ever decreases finite distance labels. -/
lemma relax_spec {d : RoutingData} {cons : Nat} {cf : RoutingEdge → ℚ → ℚ}
    {vspeed : ℚ} {src : Nat} {S : List Nat} {mnode : Nat} {mcost : ℚ}
    (wf : WF d) (hcf : ∀ e ∈ d.internal_edges, 0 ≤ cf e vspeed) :
    ∀ (L : List (Nat × RoutingEdge)) (st0 : DijkState),
      (∀ ie ∈ L, d.internal_edges.get? ie.fst = some ie.snd ∧ inSlice d mnode ie.fst) →
      RelaxPre d cons cf vspeed src S mnode mcost st0 →
      ∃ st1, relaxEdges cons cf vspeed mnode mcost L st0 = Except.ok st1 ∧
        RelaxPre d cons cf vspeed src S mnode mcost st1 ∧
        (∀ ie ∈ L, cons &&& ie.snd.constraints ≠ 0 →
          ∃ cu, st1.dist.get? ie.snd.target = some (some cu) ∧
            cu ≤ mcost + cf ie.snd vspeed) ∧
        st1.heap.length ≤ st0.heap.length + L.length ∧
        (∀ u cu0, st0.dist.get? u = some (some cu0) →
          ∃ cu1, st1.dist.get? u = some (some cu1) ∧ cu1 ≤ cu0) := by
  intro L
  induction L with
  | nil =>
    intro st0 _ pre
    refine ⟨st0, rfl, pre, ?_, ?_, ?_⟩
    · intro ie hie
      exact absurd hie (List.not_mem_nil ie)
    · simp
    · intro u cu0 h
      exact ⟨cu0, h, le_refl cu0⟩
  | cons ie rest ih =>
    obtain ⟨i, e⟩ := ie
    intro st0 hL pre
    obtain ⟨hei, hsl⟩ := hL (i, e) (List.mem_cons_self _ _)
    have hLrest : ∀ ie ∈ rest, d.internal_edges.get? ie.fst = some ie.snd ∧
        inSlice d mnode ie.fst := fun ie hie => hL ie (List.mem_cons_of_mem _ hie)
    have heL : e ∈ d.internal_edges := List.get?_mem hei
    have hmM : mnode ∈ S ++ [mnode] :=
      List.mem_append_right S (List.mem_singleton.mpr rfl)
    by_cases hmask : cons &&& e.constraints = 0
    · obtain ⟨st1, hrun, hpre1, hrel, hlen, hmono⟩ := ih st0 hLrest pre
      refine ⟨st1, ?_, hpre1, ?_, by simpa using Nat.le_succ_of_le hlen, hmono⟩
      · rw [relaxEdges, if_pos hmask]
        exact hrun
      · intro ie hie hperm
        rcases List.mem_cons.mp hie with rfl | hie
        · exact absurd hmask hperm
        · exact hrel ie hie hperm
    · have htlt : e.target < d.internal_nodes.length := wf.targets e heL
      have htdl : e.target < st0.dist.length := by rw [pre.distLen]; exact htlt
      have hdc : st0.dist.get? e.target = some (st0.dist.get ⟨e.target, htdl⟩) :=
        List.get?_eq_get htdl
      have hidx : idx? st0.dist e.target = Except.ok (st0.dist.get ⟨e.target, htdl⟩) := by
        unfold idx?
        rw [hdc]
      have hm0 : (0 : ℚ) ≤ mcost := by
        obtain ⟨p, -, hpc⟩ := pre.sound mnode mcost pre.distM
        rw [← hpc]
        exact pathCost_nonneg hcf p
      have hcand0 : mcost ≤ mcost + cf e vspeed := le_add_of_nonneg_right (hcf e heL)
      by_cases hupd : ltD (mcost + cf e vspeed) (st0.dist.get ⟨e.target, htdl⟩) = true
      · -- successful relaxation of edge (i, e)
        have hTnotS : e.target ∉ S ++ [mnode] := by
          intro hmem'
          obtain ⟨-, cT, hcT⟩ := pre.settledIn e.target hmem'
          have hdd : st0.dist.get ⟨e.target, htdl⟩ = some cT :=
            Option.some.inj (hdc.symm.trans hcT)
          rw [hdd] at hupd
          have hlt : mcost + cf e vspeed < cT := by simpa [ltD] using hupd
          have hle := pre.below e.target hmem' cT hcT
          linarith
        have hTm : e.target ≠ mnode := fun hh => hTnotS (hh ▸ hmM)
        have hTsrc : e.target ≠ src := by
          intro hh
          have h0 : st0.dist.get ⟨e.target, htdl⟩ = some 0 :=
            Option.some.inj (hdc.symm.trans (hh ▸ pre.distSrc))
          rw [h0] at hupd
          have hlt : mcost + cf e vspeed < 0 := by simpa [ltD] using hupd
          linarith
        have hgetT : (st0.dist.set e.target (some (mcost + cf e vspeed))).get? e.target =
            some (some (mcost + cf e vspeed)) :=
          List.get?_set_eq_of_lt _ htdl
        have hgetO : ∀ u, u ≠ e.target →
            (st0.dist.set e.target (some (mcost + cf e vspeed))).get? u =
              st0.dist.get? u := fun u hu =>
          List.get?_set_ne _ _ (fun hh => hu hh.symm)
        have hpgetT : (st0.pred.set e.target mnode).get? e.target = some mnode :=
          List.get?_set_eq_of_lt _ (by rw [pre.predLen]; exact htlt)
        have hpgetO : ∀ u, u ≠ e.target →
            (st0.pred.set e.target mnode).get? u = st0.pred.get? u := fun u hu =>
          List.get?_set_ne _ _ (fun hh => hu hh.symm)
        have hegetT : (st0.prede.set e.target i).get? e.target = some i :=
          List.get?_set_eq_of_lt _ (by rw [pre.predeLen]; exact htlt)
        have hegetO : ∀ u, u ≠ e.target →
            (st0.prede.set e.target i).get? u = st0.prede.get? u := fun u hu =>
          List.get?_set_ne _ _ (fun hh => hu hh.symm)
        have hSne : ∀ w, w ∈ S ++ [mnode] → w ≠ e.target :=
          fun w hw hh => hTnotS (hh ▸ hw)
        -- the old label of the updated node bounds any old heap entry for it
        have hOldEntry : ∀ en ∈ st0.heap, en.node = e.target →
            mcost + cf e vspeed < en.cost := by
          intro en hen hnn
          obtain ⟨c0, hc0, hle0⟩ := pre.heapSound en hen
          rw [hnn] at hc0
          have hdd : st0.dist.get ⟨e.target, htdl⟩ = some c0 :=
            Option.some.inj (hdc.symm.trans hc0)
          rw [hdd] at hupd
          have hlt : mcost + cf e vspeed < c0 := by simpa [ltD] using hupd
          linarith
        have pre' : RelaxPre d cons cf vspeed src S mnode mcost
            { heap := { node := e.target, cost := mcost + cf e vspeed } :: st0.heap,
              dist := st0.dist.set e.target (some (mcost + cf e vspeed)),
              pred := st0.pred.set e.target mnode,
              prede := st0.prede.set e.target i } := by
          refine ⟨?_, ?_, ?_, pre.srcLt, ?_, ?_, ?_, ?_, ?_, ?_, ?_, ?_, ?_, ?_,
            pre.snodup, pre.shead, ?_, ?_⟩
          · simpa using pre.distLen
          · simpa using pre.predLen
          · simpa using pre.predeLen
          · rw [hgetO src (Ne.symm hTsrc)]
            exact pre.distSrc
          · -- sound
            intro u c hu
            by_cases hue : u = e.target
            · subst hue
              have hc : c = mcost + cf e vspeed :=
                Option.some.inj (Option.some.inj (hu.symm.trans hgetT))
              obtain ⟨p, hp, hpc⟩ := pre.sound mnode mcost pre.distM
              refine ⟨p ++ [i], hp.snoc hei hsl hmask, ?_⟩
              rw [pathCost_append, hpc, hc]
              rw [pathCost_cons d cf vspeed i [] e hei, pathCost_nil]
              ring
            · rw [hgetO u hue] at hu
              exact pre.sound u c hu
          · -- predChain
            intro u c hne hu
            by_cases hue : u = e.target
            · subst hue
              have hc : c = mcost + cf e vspeed :=
                Option.some.inj (Option.some.inj (hu.symm.trans hgetT))
              refine ⟨mnode, i, e, mcost, hpgetT, hegetT, hei, rfl, hsl, hmask, ?_,
                by rw [hc], hmM, ?_⟩
              · rw [hgetO mnode (Ne.symm hTm)]
                exact pre.distM
              · intro huS
                exact absurd huS hTnotS
            · rw [hgetO u hue] at hu
              obtain ⟨w, i', e', cw, h1, h2, h3, h4, h5, h6, h7, h8, h9, h10⟩ :=
                pre.predChain u c hne hu
              refine ⟨w, i', e', cw, ?_, ?_, h3, h4, h5, h6, ?_, h8, h9, h10⟩
              · rw [hpgetO u hue]; exact h1
              · rw [hegetO u hue]; exact h2
              · rw [hgetO w (hSne w h9)]; exact h7
          · -- settledIn
            intro w hw
            obtain ⟨hlt', c, hc⟩ := pre.settledIn w hw
            exact ⟨hlt', c, by rw [hgetO w (hSne w hw)]; exact hc⟩
          · -- relaxedOld
            intro w hw cw hcw i' e' hsl' hei' hmask'
            rw [hgetO w (hSne w (List.mem_append_left _ hw))] at hcw
            obtain ⟨cu, hcu, hle⟩ := pre.relaxedOld w hw cw hcw i' e' hsl' hei' hmask'
            by_cases hte : e'.target = e.target
            · rw [hte] at hcu
              have hdd : st0.dist.get ⟨e.target, htdl⟩ = some cu :=
                Option.some.inj (hdc.symm.trans hcu)
              rw [hdd] at hupd
              have hlt' : mcost + cf e vspeed < cu := by simpa [ltD] using hupd
              refine ⟨mcost + cf e vspeed, ?_, ?_⟩
              · rw [hte]; exact hgetT
              · linarith
            · refine ⟨cu, ?_, hle⟩
              rw [hgetO e'.target hte]
              exact hcu
          · -- heapSound
            intro en hen
            rcases List.mem_cons.mp hen with rfl | hen
            · exact ⟨mcost + cf e vspeed, hgetT, le_refl _⟩
            · obtain ⟨c0, hc0, hle0⟩ := pre.heapSound en hen
              by_cases hne : en.node = e.target
              · have hlt' := hOldEntry en hen hne
                refine ⟨mcost + cf e vspeed, ?_, le_of_lt hlt'⟩
                rw [hne]; exact hgetT
              · exact ⟨c0, by rw [hgetO en.node hne]; exact hc0, hle0⟩
          · -- heapCover
            intro u c hu hcu
            by_cases hue : u = e.target
            · subst hue
              have hc : c = mcost + cf e vspeed :=
                Option.some.inj (Option.some.inj (hcu.symm.trans hgetT))
              rw [hc]
              exact List.mem_cons_self _ _
            · rw [hgetO u hue] at hcu
              exact List.mem_cons_of_mem _ (pre.heapCover u c hu hcu)
          · -- settledBelow
            intro w hw cw hcw en hen
            rw [hgetO w (hSne w hw)] at hcw
            rcases List.mem_cons.mp hen with rfl | hen
            · have := pre.below w hw cw hcw
              dsimp only
              linarith
            · exact pre.settledBelow w hw cw hcw en hen
          · -- settledStale
            intro en hen hw c hc
            rcases List.mem_cons.mp hen with rfl | hen
            · exact absurd hw hTnotS
            · rw [hgetO en.node (hSne en.node hw)] at hc
              exact pre.settledStale en hen hw c hc
          · -- heapDistinct
            refine List.pairwise_cons.mpr ⟨?_, pre.heapDistinct⟩
            intro en hen hnn
            have hlt' := hOldEntry en hen hnn.symm
            exact ne_of_lt hlt'
          · -- distM
            rw [hgetO mnode (Ne.symm hTm)]
            exact pre.distM
          · -- below
            intro w hw cw hcw
            rw [hgetO w (hSne w hw)] at hcw
            exact pre.below w hw cw hcw
        obtain ⟨st1, hrun, hpre1, hrel, hlen, hmono⟩ := ih _ hLrest pre'
        refine ⟨st1, ?_, hpre1, ?_, ?_, ?_⟩
        · rw [relaxEdges, if_neg hmask, hidx]
          dsimp only
          rw [if_pos hupd]
          exact hrun
        · intro ie hie hperm
          rcases List.mem_cons.mp hie with rfl | hie
          · obtain ⟨cu1, hcu1, hle1⟩ := hmono e.target (mcost + cf e vspeed) hgetT
            exact ⟨cu1, hcu1, hle1⟩
          · exact hrel ie hie hperm
        · simp only [List.length_cons] at hlen ⊢
          omega
        · intro u cu0 hu
          by_cases hue : u = e.target
          · subst hue
            have hdd : st0.dist.get ⟨e.target, htdl⟩ = some cu0 :=
              Option.some.inj (hdc.symm.trans hu)
            rw [hdd] at hupd
            have hlt' : mcost + cf e vspeed < cu0 := by simpa [ltD] using hupd
            obtain ⟨cu1, hcu1, hle1⟩ := hmono e.target (mcost + cf e vspeed) hgetT
            exact ⟨cu1, hcu1, by linarith⟩
          · obtain ⟨cu1, hcu1, hle1⟩ := hmono u cu0 (by rw [hgetO u hue]; exact hu)
            exact ⟨cu1, hcu1, hle1⟩
      · -- no relaxation: the label was already good enough
        obtain ⟨st1, hrun, hpre1, hrel, hlen, hmono⟩ := ih st0 hLrest pre
        refine ⟨st1, ?_, hpre1, ?_, by simpa using Nat.le_succ_of_le hlen, hmono⟩
        · rw [relaxEdges, if_neg hmask, hidx]
          dsimp only
          rw [if_neg hupd]
          exact hrun
        · intro ie hie hperm
          rcases List.mem_cons.mp hie with rfl | hie
          · cases hdd : st0.dist.get ⟨e.target, htdl⟩ with
            | none =>
              rw [hdd] at hupd
              exact absurd (by simp [ltD]) hupd
            | some cu =>
              rw [hdd] at hupd
              have hge : cu ≤ mcost + cf e vspeed := by
                by_contra hlt'
                exact hupd (by simp [ltD]; linarith)
              have hcu : st0.dist.get? e.target = some (some cu) := by
                rw [hdc, hdd]
              obtain ⟨cu1, hcu1, hle1⟩ := hmono e.target cu hcu
              exact ⟨cu1, hcu1, le_trans hle1 hge⟩
          · exact hrel ie hie hperm

/-- Every offset at an index `≤ |nodes|` is bounded by the total edge count
(the last offset), by monotonicity of the offset table. -/
lemma off_le_last {d : RoutingData} (wf : WF d) {j bj : Nat}
    (hj : j ≤ d.internal_nodes.length)
    (hb : d.internal_offset.get? j = some bj) : bj ≤ d.internal_edges.length := by
  rcases eq_or_lt_of_le hj with rfl | hlt
  · rw [wf.offlast] at hb
    exact le_of_eq (Option.some.inj hb).symm
  · have hjlen : j < d.internal_offset.length := by rw [wf.offlen]; omega
    have hnlen : d.internal_nodes.length < d.internal_offset.length := by
      rw [wf.offlen]; omega
    have hbj : d.internal_offset.get ⟨j, hjlen⟩ = bj :=
      Option.some.inj ((List.get?_eq_get hjlen).symm.trans hb)
    have hE : d.internal_offset.get ⟨d.internal_nodes.length, hnlen⟩ =
        d.internal_edges.length :=
      Option.some.inj ((List.get?_eq_get hnlen).symm.trans wf.offlast)
    have hp := wf.offmono
    have := List.pairwise_iff_get.mp hp ⟨j, hjlen⟩ ⟨d.internal_nodes.length, hnlen⟩ hlt
    rw [hbj, hE] at this
    exact this

/-- The heap-entry distinctness relation is symmetric. -/
lemma heapRel_symm :
    Symmetric (fun a b : HeapEntry => a.node = b.node → a.cost ≠ b.cost) :=
  fun _ _ h hn hc => h hn.symm hc.symm

/-- Discarding a stale heap entry (`cost > distance[node]`) preserves the
loop invariant with an unchanged settled list. -/
lemma inv_stale {d : RoutingData} {cons : Nat} {cf : RoutingEdge → ℚ → ℚ}
    {vspeed : ℚ} {src : Nat} {st : DijkState} {S : List Nat}
    (inv : DInv d cons cf vspeed src st S)
    {m : HeapEntry} {rest : List HeapEntry} (hpop : popMin st.heap = some (m, rest))
    {dn : Option ℚ} (hdn : st.dist.get? m.node = some dn)
    (hstale : gtD m.cost dn = true) :
    DInv d cons cf vspeed src { st with heap := rest } S := by
  have hperm := popMin_perm hpop
  have hsub : ∀ en ∈ rest, en ∈ st.heap := fun en hen =>
    hperm.symm.subset (List.mem_cons_of_mem m hen)
  refine ⟨inv.distLen, inv.predLen, inv.predeLen, inv.srcLt, inv.distSrc, inv.sound,
    inv.predChain, inv.settledIn, inv.settledRelaxed, ?_, ?_, ?_, ?_, ?_,
    inv.snodup, inv.shead⟩
  · intro en hen
    exact inv.heapSound en (hsub en hen)
  · intro u c hu hcu
    have hmem := inv.heapCover u c hu hcu
    have : ({ node := u, cost := c } : HeapEntry) ∈ m :: rest := hperm.subset hmem
    rcases List.mem_cons.mp this with heq | hin
    · exfalso
      have hn : m.node = u := by rw [← heq]
      have hc : m.cost = c := by rw [← heq]
      rw [hn, hcu] at hdn
      have hdneq : dn = some c := (Option.some.inj hdn).symm
      rw [hdneq] at hstale
      have : m.cost > c := by simpa [gtD] using hstale
      rw [hc] at this
      exact lt_irrefl c this
    · exact hin
  · intro w hw cw hcw en hen
    exact inv.settledBelow w hw cw hcw en (hsub en hen)
  · intro en hen hwS c hc
    exact inv.settledStale en (hsub en hen) hwS c hc
  · exact ((List.Perm.pairwise_iff (fun h hn hc => h hn.symm hc.symm) hperm).mp inv.heapDistinct).of_cons

/-- Expanding a non-stale minimum entry: the slice lookups succeed, the
relaxation succeeds, and the loop invariant is restored with the popped node
appended to the settled list. Also: the popped node was not yet settled, and
the heap grows by at most the slice width. -/
lemma inv_expand {d : RoutingData} {cons : Nat} {cf : RoutingEdge → ℚ → ℚ}
    {vspeed : ℚ} {src : Nat} {st : DijkState} {S : List Nat}
    (wf : WF d) (hcf : ∀ e ∈ d.internal_edges, 0 ≤ cf e vspeed)
    (inv : DInv d cons cf vspeed src st S)
    {m : HeapEntry} {rest : List HeapEntry} (hpop : popMin st.heap = some (m, rest))
    {dn : Option ℚ} (hdn : st.dist.get? m.node = some dn)
    (hnstale : ¬ gtD m.cost dn = true) :
    ∃ a b slice st', offset_lookup m.node d = Except.ok (a, b) ∧
      sliceE d.internal_edges a b = Except.ok slice ∧
      relaxEdges cons cf vspeed m.node m.cost ((List.range' a (b - a)).zip slice)
        { st with heap := rest } = Except.ok st' ∧
      DInv d cons cf vspeed src st' (S ++ [m.node]) ∧
      st'.heap.length ≤ rest.length + (b - a) ∧
      m.node ∉ S := by
  have hperm := popMin_perm hpop
  have hsub : ∀ en ∈ rest, en ∈ st.heap := fun en hen =>
    hperm.symm.subset (List.mem_cons_of_mem m hen)
  have hmem := popMin_mem hpop
  obtain ⟨c, hc, hcm⟩ := inv.heapSound m hmem
  have hdneq : dn = some c := Option.some.inj (hdn.symm.trans hc)
  have hmc : c = m.cost := by
    rcases lt_or_eq_of_le hcm with hlt | heq
    · exfalso
      apply hnstale
      rw [hdneq]
      simp [gtD]
      exact hlt
    · exact heq
  have hcM : st.dist.get? m.node = some (some m.cost) := by rw [hc, hmc]
  have hmnotS : m.node ∉ S := by
    intro hmS
    have := inv.settledStale m hmem hmS c hc
    rw [hmc] at this
    exact lt_irrefl m.cost this
  have hmlt : m.node < d.internal_nodes.length := by
    have := lt_of_get?_eq_some hc
    rw [inv.distLen] at this
    exact this
  have hmM : m.node ∈ S ++ [m.node] :=
    List.mem_append_right S (List.mem_singleton.mpr rfl)
  obtain ⟨a, b, hga, hgb, hab, hoff⟩ := offset_lookup_ok d m.node wf.offlen wf.offmono hmlt
  have hbE : b ≤ d.internal_edges.length := off_le_last wf (by omega) hgb
  have hslice : sliceE d.internal_edges a b =
      Except.ok ((d.internal_edges.drop a).take (b - a)) := by
    unfold sliceE
    rw [if_pos ⟨hab, hbE⟩]
  have hS'len : ∀ w ∈ S, w ≠ m.node := fun w hw hh => hmnotS (hh ▸ hw)
  -- distinctness of the popped entry against the remaining heap
  have hdistinct' := (List.Perm.pairwise_iff (fun h hn hc => h hn.symm hc.symm) hperm).mp inv.heapDistinct
  have hmdistinct : ∀ en ∈ rest, m.node = en.node → m.cost ≠ en.cost :=
    (List.pairwise_cons.mp hdistinct').1
  have hminrest : ∀ en ∈ rest, m.cost ≤ en.cost := fun en hen =>
    popMin_min hpop en (hsub en hen)
  -- the mid-relaxation invariant at the start of the fold
  have pre : RelaxPre d cons cf vspeed src S m.node m.cost { st with heap := rest } := by
    refine ⟨inv.distLen, inv.predLen, inv.predeLen, inv.srcLt, inv.distSrc, inv.sound,
      ?_, ?_, inv.settledRelaxed, ?_, ?_, ?_, ?_, ?_, ?_, ?_, hcM, ?_⟩
    · -- predChain upgraded to S ++ [m.node]
      intro u c' hne hu
      obtain ⟨w, i', e', cw, h1, h2, h3, h4, h5, h6, h7, h8, h9, h10⟩ :=
        inv.predChain u c' hne hu
      refine ⟨w, i', e', cw, h1, h2, h3, h4, h5, h6, h7, h8,
        List.mem_append_left _ h9, ?_⟩
      intro huS'
      rw [List.indexOf_append_of_mem h9]
      rcases List.mem_append.mp huS' with huS | hum
      · rw [List.indexOf_append_of_mem huS]
        exact h10 huS
      · have hueq : u = m.node := List.mem_singleton.mp hum
        subst hueq
        rw [List.indexOf_append_of_not_mem hmnotS]
        have : S.indexOf w < S.length := List.indexOf_lt_length.mpr h9
        simpa using this
    · -- settledIn
      intro w hw
      rcases List.mem_append.mp hw with hwS | hwm
      · exact inv.settledIn w hwS
      · have : w = m.node := List.mem_singleton.mp hwm
        subst this
        exact ⟨hmlt, m.cost, hcM⟩
    · -- heapSound
      intro en hen
      exact inv.heapSound en (hsub en hen)
    · -- heapCover
      intro u c' hu hcu
      have huS : u ∉ S := fun hh => hu (List.mem_append_left _ hh)
      have hum : u ≠ m.node := fun hh => hu (hh ▸ hmM)
      have hmemc := inv.heapCover u c' huS hcu
      have : ({ node := u, cost := c' } : HeapEntry) ∈ m :: rest := hperm.subset hmemc
      rcases List.mem_cons.mp this with heq | hin
      · exfalso
        apply hum
        rw [← heq]
      · exact hin
    · -- settledBelow
      intro w hw cw hcw en hen
      rcases List.mem_append.mp hw with hwS | hwm
      · exact inv.settledBelow w hwS cw hcw en (hsub en hen)
      · have : w = m.node := List.mem_singleton.mp hwm
        subst this
        have hcwm : cw = m.cost := Option.some.inj (Option.some.inj (hcw.symm.trans hcM))
        rw [hcwm]
        exact hminrest en hen
    · -- settledStale
      intro en hen hwS c' hc'
      rcases List.mem_append.mp hwS with hS | hm
      · exact inv.settledStale en (hsub en hen) hS c' hc'
      · have hen_m : en.node = m.node := List.mem_singleton.mp hm
        rw [hen_m] at hc'
        have hceq : c' = m.cost := Option.some.inj (Option.some.inj (hc'.symm.trans hcM))
        rw [hceq]
        exact lt_of_le_of_ne (hminrest en hen) (hmdistinct en hen hen_m.symm)
    · -- heapDistinct
      exact hdistinct'.of_cons
    · -- snodup
      rw [List.nodup_append]
      exact ⟨inv.snodup, List.nodup_singleton _, by
        intro w hwS hwm
        exact hS'len w hwS (List.mem_singleton.mp hwm)⟩
    · -- shead
      intro w hw
      cases hScase : S with
      | nil =>
        subst hScase
        have : m.node = w := by
          simpa using hw
        subst this
        by_contra hne
        obtain ⟨w', i', e', cw, -, -, -, -, -, -, -, -, h9, -⟩ :=
          inv.predChain m.node m.cost hne hcM
        exact absurd h9 (List.not_mem_nil w')
      | cons s S'' =>
        subst hScase
        apply inv.shead
        have h0 : (0 : Nat) < (s :: S'').length := by simp
        rw [List.get?_append h0] at hw
        exact hw
    · -- below
      intro w hw cw hcw
      rcases List.mem_append.mp hw with hwS | hwm
      · have := inv.settledBelow w hwS cw hcw m hmem
        exact this
      · have : w = m.node := List.mem_singleton.mp hwm
        subst this
        exact le_of_eq (Option.some.inj (Option.some.inj (hcw.symm.trans hcM)))
  have hL : ∀ ie ∈ (List.range' a (b - a)).zip ((d.internal_edges.drop a).take (b - a)),
      d.internal_edges.get? ie.fst = some ie.snd ∧ inSlice d m.node ie.fst := by
    intro ie hie
    obtain ⟨h1, h2, h3⟩ := mem_zip_slice hie
    exact ⟨h1, a, b, hga, hgb, h2, h3⟩
  obtain ⟨st', hrun, post, hrel, hlen, hmono⟩ := relax_spec wf hcf _ _ hL pre
  refine ⟨a, b, _, st', hoff, hslice, hrun, ?_, ?_, hmnotS⟩
  · -- reassemble the loop invariant with the extended settled list
    refine ⟨post.distLen, post.predLen, post.predeLen, post.srcLt, post.distSrc,
      post.sound, post.predChain, post.settledIn, ?_, post.heapSound, post.heapCover,
      post.settledBelow, post.settledStale, post.heapDistinct, post.snodup, post.shead⟩
    -- settledRelaxed for the extended settled list
    intro w hw cw hcw i' e' hsl' hei' hmask'
    rcases List.mem_append.mp hw with hwS | hwm
    · exact post.relaxedOld w hwS cw hcw i' e' hsl' hei' hmask'
    · have : w = m.node := List.mem_singleton.mp hwm
      subst this
      have hcwm : cw = m.cost :=
        Option.some.inj (Option.some.inj (hcw.symm.trans post.distM))
      obtain ⟨a', b', hga', hgb', hai', hib'⟩ := hsl'
      have haa : a' = a := Option.some.inj (hga'.symm.trans hga)
      have hbb : b' = b := Option.some.inj (hgb'.symm.trans hgb)
      subst haa
      subst hbb
      have hmemz := inSlice_mem_zip hai' hib' hbE hei'
      obtain ⟨cu, hcu, hle⟩ := hrel (i', e') hmemz hmask'
      rw [hcwm]
      exact ⟨cu, hcu, hle⟩
  · -- heap growth bound
    have hzlen : ((List.range' a (b - a)).zip
        ((d.internal_edges.drop a).take (b - a))).length ≤ b - a := by
      rw [List.length_zip]
      simp
    calc st'.heap.length ≤ rest.length + ((List.range' a (b - a)).zip
        ((d.internal_edges.drop a).take (b - a))).length := hlen
      _ ≤ rest.length + (b - a) := by omega

lemma sumLen_nil (d : RoutingData) : sumLen d [] = 0 := rfl

lemma sumTime_nil (d : RoutingData) (vspeed : ℚ) : sumTime d vspeed [] = 0 := rfl

lemma sumLen_append (d : RoutingData) (p q : List Nat) :
    sumLen d (p ++ q) = sumLen d p + sumLen d q := by
  simp [sumLen]

lemma sumTime_append (d : RoutingData) (vspeed : ℚ) (p q : List Nat) :
    sumTime d vspeed (p ++ q) = sumTime d vspeed p + sumTime d vspeed q := by
  simp [sumTime]

lemma sumLen_single {d : RoutingData} {i : Nat} {e : RoutingEdge}
    (he : d.internal_edges.get? i = some e) : sumLen d [i] = e.length := by
  simp only [sumLen, List.map_cons, List.map_nil, List.sum_cons, List.sum_nil, he]
  ring

lemma sumTime_single {d : RoutingData} {vspeed : ℚ} {i : Nat} {e : RoutingEdge}
    (he : d.internal_edges.get? i = some e) :
    sumTime d vspeed [i] = e.length / min e.speed vspeed := by
  simp only [sumTime, List.map_cons, List.map_nil, List.sum_cons, List.sum_nil, he]
  ring

lemma pathNodes_single {d : RoutingData} {i : Nat} {e : RoutingEdge}
    (he : d.internal_edges.get? i = some e) : pathNodes d [i] = [e.target] := by
  simp only [pathNodes, List.map_cons, List.map_nil, he]

lemma posList_append (d : RoutingData) (ns ms : List Nat) :
    posList d (ns ++ ms) = posList d ns ++ posList d ms := by
  simp [posList]

lemma posList_single {d : RoutingData} {u : Nat} {osm : Int} {nd : OsmNode}
    (hn : d.internal_nodes.get? u = some osm) (hm : mapGet? d.osm_nodes osm = some nd) :
    posList d [u] = [(nd.position.lat, nd.position.lon)] := by
  simp only [posList, List.map_cons, List.map_nil, hn, hm]

/-- Success of the route-builder loop is preserved by adding fuel. -/
lemma buildRouteLoop_mono {d : RoutingData} {vspeed : ℚ} {src : Nat}
    {pred prede : List Nat} :
    ∀ {fuel node edge : Nat} {acc r : Route},
      buildRouteLoop d vspeed src pred prede fuel node edge acc = Except.ok r →
      buildRouteLoop d vspeed src pred prede (fuel + 1) node edge acc = Except.ok r := by
  intro fuel
  induction fuel with
  | zero =>
    intro node edge acc r h
    exact absurd h (by simp [buildRouteLoop])
  | succ f ih =>
    intro node edge acc r h
    rw [buildRouteLoop] at h
    rw [buildRouteLoop]
    by_cases hs : node = src
    · rw [if_pos hs] at h ⊢
      exact h
    · rw [if_neg hs] at h ⊢
      cases h1 : idx? d.internal_nodes node with
      | error e => rw [h1] at h; exact absurd h (by simp)
      | ok osm_id =>
        rw [h1] at h
        dsimp only at h ⊢
        cases h2 : mapGet? d.osm_nodes osm_id with
        | none => rw [h2] at h; exact absurd h (by simp)
        | some osmn =>
          rw [h2] at h
          dsimp only at h ⊢
          cases h3 : idx? d.internal_edges edge with
          | error e => rw [h3] at h; exact absurd h (by simp)
          | ok eg =>
            rw [h3] at h
            dsimp only at h ⊢
            cases h4 : idx? pred node with
            | error e => rw [h4] at h; exact absurd h (by simp)
            | ok node' =>
              rw [h4] at h
              dsimp only at h ⊢
              cases h5 : idx? prede node' with
              | error e => rw [h5] at h; exact absurd h (by simp)
              | ok edge' =>
                rw [h5] at h
                dsimp only at h ⊢
                exact ih h

/-- Success of the route-builder loop transfers to any larger fuel. -/
lemma buildRouteLoop_mono_le {d : RoutingData} {vspeed : ℚ} {src : Nat}
    {pred prede : List Nat} {fuel fuel' node edge : Nat} {acc r : Route}
    (hle : fuel ≤ fuel')
    (h : buildRouteLoop d vspeed src pred prede fuel node edge acc = Except.ok r) :
    buildRouteLoop d vspeed src pred prede fuel' node edge acc = Except.ok r := by
  induction fuel' with
  | zero =>
    have : fuel = 0 := by omega
    subst this
    exact h
  | succ f ih =>
    rcases Nat.lt_or_ge fuel (f + 1) with hlt | hge
    · exact buildRouteLoop_mono (ih (by omega))
    · have : fuel = f + 1 := by omega
      subst this
      exact h

/-- Walking the predecessor chain from a reached node: the chain realizes a
permitted path from the source whose cost telescopes to the node's distance
label, and the route-builder loop accumulates exactly its length, its
capped-speed time, and the positions of its nodes (source excluded). -/
lemma buildWalk {d : RoutingData} {cons : Nat} {cf : RoutingEdge → ℚ → ℚ}
    {vspeed : ℚ} {src : Nat} {st : DijkState} {S : List Nat}
    (wf : WF d) (inv : DInv d cons cf vspeed src st S) :
    ∀ (k : Nat) (u : Nat) (cu : ℚ) (eu : Nat) (acc : Route),
      st.dist.get? u = some (some cu) →
      (u = src ∨ (u ∈ S ∧ S.indexOf u < k) ∨ S.length < k) →
      st.prede.get? u = some eu →
      ∃ p : List Nat, IsPath d cons src u p ∧ pathCost d cf vspeed p = cu ∧
        src ∉ pathNodes d p ∧
        (u ≠ src → (pathNodes d p).getLast? = some u) ∧
        (u = src → p = []) ∧
        buildRouteLoop d vspeed src st.pred st.prede (k + 1) u eu acc =
          Except.ok { distance := acc.distance + sumLen d p,
                      time := acc.time + sumTime d vspeed p,
                      path := acc.path ++ (posList d (pathNodes d p)).reverse } := by
  intro k
  induction k with
  | zero =>
    intro u cu eu acc hd hk hprede
    have hu : u = src := by
      rcases hk with h | ⟨-, h⟩ | h
      · exact h
      · omega
      · omega
    subst hu
    have hcu : cu = 0 :=
      Option.some.inj (Option.some.inj (hd.symm.trans inv.distSrc))
    refine ⟨[], rfl, by rw [pathCost_nil]; exact hcu.symm, by simp [pathNodes],
      fun h => absurd rfl h, fun _ => rfl, ?_⟩
    rw [buildRouteLoop, if_pos rfl]
    refine congrArg Except.ok ?_
    cases acc
    simp [sumLen, sumTime, posList, pathNodes]
  | succ k ih =>
    intro u cu eu acc hd hk hprede
    by_cases hu : u = src
    · subst hu
      have hcu : cu = 0 :=
        Option.some.inj (Option.some.inj (hd.symm.trans inv.distSrc))
      refine ⟨[], rfl, by rw [pathCost_nil]; exact hcu.symm, by simp [pathNodes],
        fun h => absurd rfl h, fun _ => rfl, ?_⟩
      rw [buildRouteLoop, if_pos rfl]
      refine congrArg Except.ok ?_
      cases acc
      simp [sumLen, sumTime, posList, pathNodes]
    · obtain ⟨w, i, e, cw, hpredu, hpredeu, hei, htgt, hsl, hmask, hdw, htel, hwS, hord⟩ :=
        inv.predChain u cu hu hd
      have heu : eu = i := Option.some.inj (hprede.symm.trans hpredeu)
      subst heu
      have hult : u < d.internal_nodes.length := by
        have := lt_of_get?_eq_some hd
        rw [inv.distLen] at this
        exact this
      have hwlt : w < d.internal_nodes.length := (inv.settledIn w hwS).1
      have hosm : d.internal_nodes.get? u = some (d.internal_nodes.get ⟨u, hult⟩) :=
        List.get?_eq_get hult
      obtain ⟨nd, hnd⟩ := wf_osm_get wf hosm
      have hwel : w < st.prede.length := by rw [inv.predeLen]; exact hwlt
      have hprede_w : st.prede.get? w = some (st.prede.get ⟨w, hwel⟩) :=
        List.get?_eq_get hwel
      have hkw : w = src ∨ (w ∈ S ∧ S.indexOf w < k) ∨ S.length < k := by
        rcases hk with h | ⟨huS, hlt⟩ | hlen
        · exact absurd h hu
        · refine Or.inr (Or.inl ⟨hwS, ?_⟩)
          have := hord huS
          omega
        · refine Or.inr (Or.inl ⟨hwS, ?_⟩)
          have := List.indexOf_lt_length.mpr hwS
          omega
      obtain ⟨pw, hpw, hpwc, hpwsrc, hpwlast, hpwnil, hpweq⟩ :=
        ih w cw (st.prede.get ⟨w, hwel⟩)
          { distance := acc.distance + e.length,
            time := acc.time + e.length / min e.speed vspeed,
            path := acc.path ++ [(nd.position.lat, nd.position.lon)] } hdw hkw hprede_w
      refine ⟨pw ++ [eu], ?_, ?_, ?_, ?_, ?_, ?_⟩
      · have := hpw.snoc hei hsl hmask
        rw [htgt] at this
        exact this
      · rw [pathCost_append, hpwc, pathCost_cons d cf vspeed eu [] e hei, pathCost_nil,
          ← htel]
        ring
      · rw [pathNodes_append, pathNodes_single hei, htgt]
        intro hmem
        rcases List.mem_append.mp hmem with hmem | hmem
        · exact hpwsrc hmem
        · exact hu (List.mem_singleton.mp hmem).symm
      · intro _
        rw [pathNodes_append, pathNodes_single hei, htgt]
        exact List.getLast?_concat _
      · intro h
        exact absurd h hu
      · rw [buildRouteLoop, if_neg hu, idx?_eq_ok.mpr hosm]
        dsimp only
        rw [hnd]
        dsimp only
        rw [idx?_eq_ok.mpr hei]
        dsimp only
        rw [idx?_eq_ok.mpr hpredu]
        dsimp only
        rw [idx?_eq_ok.mpr hprede_w]
        dsimp only
        rw [cap_speed_eq_min, hpweq]
        refine congrArg Except.ok ?_
        rw [Route.mk.injEq]
        refine ⟨?_, ?_, ?_⟩
        · rw [sumLen_append, sumLen_single hei]
          ring
        · rw [sumTime_append, sumTime_single hei]
          ring
        · rw [pathNodes_append, pathNodes_single hei, htgt, posList_append,
            posList_single hosm hnd, List.reverse_append]
          simp

/-- At the moment the target is popped, `build_route` with fuel at least
`|S| + 2` returns exactly the route realizing the predecessor chain: a
permitted path from source to target whose cost under the search's cost
function is the target's distance label. -/
lemma build_route_spec {d : RoutingData} {cons : Nat} {cf : RoutingEdge → ℚ → ℚ}
    {vspeed : ℚ} {src : Nat} {st : DijkState} {S : List Nat}
    (wf : WF d) (inv : DInv d cons cf vspeed src st S) {target : Nat} {ctgt : ℚ}
    (hdt : st.dist.get? target = some (some ctgt)) :
    ∃ p : List Nat, IsPath d cons src target p ∧ pathCost d cf vspeed p = ctgt ∧
      src ∉ pathNodes d p ∧
      (target ≠ src → (pathNodes d p).getLast? = some target) ∧
      (target = src → p = []) ∧
      ∀ bfuel, S.length + 2 ≤ bfuel →
        build_route bfuel src target st.pred st.prede d vspeed =
          Except.ok (some { distance := sumLen d p, time := sumTime d vspeed p,
                            path := posList d (pathNodes d p) }) := by
  have htlt : target < st.prede.length := by
    have := lt_of_get?_eq_some hdt
    rw [inv.distLen] at this
    rw [inv.predeLen]
    exact this
  have hprede_t : st.prede.get? target = some (st.prede.get ⟨target, htlt⟩) :=
    List.get?_eq_get htlt
  obtain ⟨p, h1, h2, h3, h4, h5, heq⟩ :=
    buildWalk wf inv (S.length + 1) target ctgt (st.prede.get ⟨target, htlt⟩)
      { distance := 0, time := 0, path := [] } hdt (Or.inr (Or.inr (by omega)))
      hprede_t
  refine ⟨p, h1, h2, h3, h4, h5, ?_⟩
  intro bfuel hbf
  unfold build_route
  rw [idx?_eq_ok.mpr hprede_t]
  dsimp only
  rw [buildRouteLoop_mono_le (show S.length + 1 + 1 ≤ bfuel by omega) heq]
  dsimp only
  refine congrArg Except.ok (congrArg some ?_)
  rw [Route.mk.injEq]
  exact ⟨zero_add _, zero_add _, by simp⟩

/-- Success of `build_route` is preserved by adding fuel. -/
lemma build_route_mono_le {bfuel bfuel' source target : Nat}
    {pred prede : List Nat} {d : RoutingData} {vspeed : ℚ} {x : Option Route}
    (hle : bfuel ≤ bfuel')
    (h : build_route bfuel source target pred prede d vspeed = Except.ok x) :
    build_route bfuel' source target pred prede d vspeed = Except.ok x := by
  unfold build_route at h ⊢
  cases h0 : idx? prede target with
  | error e => rw [h0] at h; exact absurd h (by simp)
  | ok e0 =>
    rw [h0] at h
    dsimp only at h ⊢
    cases h1 : buildRouteLoop d vspeed source pred prede bfuel target e0
      { distance := 0, time := 0, path := [] } with
    | error e => rw [h1] at h; exact absurd h (by simp)
    | ok r =>
      rw [h1] at h
      rw [buildRouteLoop_mono_le hle h1]
      exact h

/-- Master analysis of a successful search: whenever the main loop, started
from a state satisfying the invariant, produces a route, that route realizes
a mode-permitted path from source to target of minimal cost under the
selected cost function; its distance, time and path fields are the path's
length sum, capped-speed time sum, and node positions (source excluded). -/
lemma dijkstraLoop_ok_some {d : RoutingData} {cons : Nat} {cf : RoutingEdge → ℚ → ℚ}
    {vspeed : ℚ} {src target : Nat} (wf : WF d)
    (hcf : ∀ e ∈ d.internal_edges, 0 ≤ cf e vspeed) :
    ∀ (fuel : Nat) (st : DijkState) (S : List Nat) (bfuel : Nat) (r : Route),
      DInv d cons cf vspeed src st S →
      dijkstraLoop d cons cf vspeed src target bfuel fuel st = Except.ok (some r) →
      ∃ p : List Nat, IsPath d cons src target p ∧
        (∀ q, IsPath d cons src target q →
          pathCost d cf vspeed p ≤ pathCost d cf vspeed q) ∧
        src ∉ pathNodes d p ∧
        (target ≠ src → (pathNodes d p).getLast? = some target) ∧
        (target = src → p = []) ∧
        r = { distance := sumLen d p, time := sumTime d vspeed p,
              path := posList d (pathNodes d p) } := by
  intro fuel
  induction fuel with
  | zero =>
    intro st S bfuel r inv h
    exact absurd h (by simp [dijkstraLoop])
  | succ n ih =>
    intro st S bfuel r inv h
    rw [dijkstraLoop] at h
    cases hpop : popMin st.heap with
    | none => rw [hpop] at h; exact absurd h (by simp)
    | some pr =>
      obtain ⟨m, rest⟩ := pr
      rw [hpop] at h
      dsimp only at h
      obtain ⟨c, hc, hcm⟩ := inv.heapSound m (popMin_mem hpop)
      by_cases htgt : m.node = target
      · rw [if_pos htgt] at h
        subst htgt
        obtain ⟨p, h1, h2, h3, h4, h5, hbr⟩ := build_route_spec wf inv hc
        have hopt := pop_optimal inv hcf hpop hc
        have hcanon := hbr (max bfuel (S.length + 2)) (le_max_right _ _)
        have hlift := build_route_mono_le (le_max_left bfuel (S.length + 2)) h
        refine ⟨p, h1, ?_, h3, h4, h5, ?_⟩
        · intro q hq
          rw [h2]
          exact hopt q hq
        · exact Option.some.inj (Except.ok.inj (hlift.symm.trans hcanon))
      · rw [if_neg htgt] at h
        have hidx : idx? st.dist m.node = Except.ok (some c) := idx?_eq_ok.mpr hc
        rw [hidx] at h
        dsimp only at h
        by_cases hstale : gtD m.cost (some c) = true
        · rw [if_pos hstale] at h
          exact ih _ S bfuel r (inv_stale inv hpop hc hstale) h
        · rw [if_neg hstale] at h
          obtain ⟨a, b, slice, st', hoff, hslice, hrun, hinv', -, -⟩ :=
            inv_expand wf hcf inv hpop hc hstale
          rw [hoff] at h
          dsimp only at h
          rw [hslice] at h
          dsimp only at h
          rw [hrun] at h
          exact ih st' (S ++ [m.node]) bfuel r hinv' h

/-- One non-target, non-stale iteration of the main loop, as an equation
between successive fuel stages, with every intermediate lookup supplied as a
hypothesis. -/
lemma dijkstraLoop_step {d : RoutingData} {cons : Nat} {cf : RoutingEdge → ℚ → ℚ}
    {v : ℚ} {src tgt bfuel fuel : Nat} {st : DijkState} {m : HeapEntry}
    {rest : List HeapEntry} {dn : Option ℚ} {a b : Nat} {slice : List RoutingEdge}
    {st' st'' : DijkState}
    (h1 : popMin st.heap = some (m, rest))
    (h2 : m.node ≠ tgt)
    (h3 : idx? st.dist m.node = Except.ok dn)
    (h4 : gtD m.cost dn = false)
    (h5 : offset_lookup m.node d = Except.ok (a, b))
    (h6 : sliceE d.internal_edges a b = Except.ok slice)
    (h7 : relaxEdges cons cf v m.node m.cost ((List.range' a (b - a)).zip slice)
        { st with heap := rest } = Except.ok st')
    (h8 : st' = st'') :
    dijkstraLoop d cons cf v src tgt bfuel (fuel + 1) st =
      dijkstraLoop d cons cf v src tgt bfuel fuel st'' := by
  rw [dijkstraLoop, h1]
  dsimp only
  rw [if_neg h2, h3]
  dsimp only
  rw [h4, if_neg Bool.false_ne_true, h5]
  dsimp only
  rw [h6]
  dsimp only
  rw [h7]
  dsimp only
  rw [h8]

/-- The iteration that pops the target hands over to `build_route`. -/
lemma dijkstraLoop_found {d : RoutingData} {cons : Nat} {cf : RoutingEdge → ℚ → ℚ}
    {v : ℚ} {src tgt bfuel fuel : Nat} {st : DijkState} {m : HeapEntry}
    {rest : List HeapEntry} {r : Option Route}
    (h1 : popMin st.heap = some (m, rest))
    (h2 : m.node = tgt)
    (h3 : build_route bfuel src tgt st.pred st.prede d v = Except.ok r) :
    dijkstraLoop d cons cf v src tgt bfuel (fuel + 1) st = Except.ok r := by
  rw [dijkstraLoop, h1]
  dsimp only
  rw [if_pos h2]
  exact h3

/-- One non-source step of the route builder's walk-back loop, as an
equation between successive fuel stages. -/
lemma buildRouteLoop_step {d : RoutingData} {v : ℚ} {src : Nat}
    {pred prede : List Nat} {fuel node edge : Nat} {acc : Route}
    {osm_id : Int} {osmn : OsmNode} {eg : RoutingEdge} {sp : ℚ}
    {node' edge' : Nat}
    (h0 : node ≠ src)
    (h1 : idx? d.internal_nodes node = Except.ok osm_id)
    (h2 : mapGet? d.osm_nodes osm_id = some osmn)
    (h3 : idx? d.internal_edges edge = Except.ok eg)
    (h4 : (if v < eg.speed then v else eg.speed) = sp)
    (h5 : idx? pred node = Except.ok node')
    (h6 : idx? prede node' = Except.ok edge') :
    buildRouteLoop d v src pred prede (fuel + 1) node edge acc =
      buildRouteLoop d v src pred prede fuel node' edge'
        { distance := acc.distance + eg.length,
          time := acc.time + eg.length / sp,
          path := acc.path ++ [(osmn.position.lat, osmn.position.lon)] } := by
  rw [buildRouteLoop, if_neg h0, h1]
  dsimp only
  rw [h2]
  dsimp only
  rw [h3]
  dsimp only
  rw [h5]
  dsimp only
  rw [h6]
  dsimp only
  rw [h4]

/-- The walk-back loop exits as soon as it reaches the source. -/
lemma buildRouteLoop_base {d : RoutingData} {v : ℚ} {src : Nat}
    {pred prede : List Nat} {fuel node edge : Nat} {acc : Route}
    (h : node = src) :
    buildRouteLoop d v src pred prede (fuel + 1) node edge acc = Except.ok acc := by
  rw [buildRouteLoop, if_pos h]

/-- `build_route` in terms of its loop: reverse the accumulated path and wrap
in `Some`. -/
lemma build_route_eval {bfuel src tgt : Nat} {pred prede : List Nat}
    {d : RoutingData} {v : ℚ} {e0 : Nat} {r : Route}
    (h0 : idx? prede tgt = Except.ok e0)
    (h1 : buildRouteLoop d v src pred prede bfuel tgt e0
      { distance := 0, time := 0, path := [] } = Except.ok r) :
    build_route bfuel src tgt pred prede d v =
      Except.ok (some (⟨r.distance, r.time, r.path.reverse⟩ : Route)) := by
  unfold build_route
  rw [h0]
  dsimp only
  rw [h1]

set_option maxRecDepth 10000 in
/-- §8 walk/distance query A→C on the demo graph: the search pops A, relaxes
A→B (A→D is car-only), pops B, relaxes B→C, pops C and builds the A-B-C
route of length 20. -/
lemma demo_walk_eval : run_dijkstra 10 10 demoGraph 1 3 FLAG_WALK edge_cost_distance =
    Except.ok (some { distance := 20, time := 72 / 5, path := [(0, 1), (1, 1)] }) := by
  have e1 : run_dijkstra 10 10 demoGraph 1 3 FLAG_WALK edge_cost_distance =
      dijkstraLoop demoGraph FLAG_WALK edge_cost_distance (vspeed_of FLAG_WALK) 0 2 10 10
        ⟨[⟨0, 0⟩], [some 0, none, none, none], [0, 0, 0, 0], [0, 0, 0, 0]⟩ := rfl
  have e2 : dijkstraLoop demoGraph FLAG_WALK edge_cost_distance (vspeed_of FLAG_WALK)
        0 2 10 10 ⟨[⟨0, 0⟩], [some 0, none, none, none], [0, 0, 0, 0], [0, 0, 0, 0]⟩ =
      dijkstraLoop demoGraph FLAG_WALK edge_cost_distance (vspeed_of FLAG_WALK) 0 2 10 9
        ⟨[⟨1, 10⟩], [some 0, some 10, none, none], [0, 0, 0, 0], [0, 0, 0, 0]⟩ :=
    dijkstraLoop_step rfl (by decide) rfl rfl rfl rfl rfl
      (by norm_num [edge_cost_distance])
  have e3 : dijkstraLoop demoGraph FLAG_WALK edge_cost_distance (vspeed_of FLAG_WALK)
        0 2 10 9 ⟨[⟨1, 10⟩], [some 0, some 10, none, none], [0, 0, 0, 0], [0, 0, 0, 0]⟩ =
      dijkstraLoop demoGraph FLAG_WALK edge_cost_distance (vspeed_of FLAG_WALK) 0 2 10 8
        ⟨[⟨2, 20⟩], [some 0, some 10, some 20, none], [0, 0, 1, 0], [0, 0, 2, 0]⟩ :=
    dijkstraLoop_step rfl (by decide) rfl rfl rfl rfl rfl
      (by norm_num [edge_cost_distance])
  have b1 : buildRouteLoop demoGraph (vspeed_of FLAG_WALK) 0 [0, 0, 1, 0] [0, 0, 2, 0]
        10 2 2 ⟨0, 0, []⟩ =
      buildRouteLoop demoGraph (vspeed_of FLAG_WALK) 0 [0, 0, 1, 0] [0, 0, 2, 0]
        9 1 0 ⟨0 + (10 : ℚ), 0 + (10 : ℚ) / (25 / 18), [] ++ [((1 : ℚ), (1 : ℚ))]⟩ :=
    buildRouteLoop_step (by decide) (by rfl) (by rfl) (by rfl)
      (show (if vspeed_of FLAG_WALK < (10 : ℚ) then vspeed_of FLAG_WALK else (10 : ℚ)) =
          25 / 18 by norm_num [vspeed_of, FLAG_WALK, FLAG_CAR, FLAG_BIKE])
      (by rfl) (by rfl)
  have b2 : buildRouteLoop demoGraph (vspeed_of FLAG_WALK) 0 [0, 0, 1, 0] [0, 0, 2, 0]
        9 1 0 ⟨0 + (10 : ℚ), 0 + (10 : ℚ) / (25 / 18), [] ++ [((1 : ℚ), (1 : ℚ))]⟩ =
      buildRouteLoop demoGraph (vspeed_of FLAG_WALK) 0 [0, 0, 1, 0] [0, 0, 2, 0]
        8 0 0 ⟨(0 + (10 : ℚ)) + 10, (0 + (10 : ℚ) / (25 / 18)) + 10 / (25 / 18),
          ([] ++ [((1 : ℚ), (1 : ℚ))]) ++ [((0 : ℚ), (1 : ℚ))]⟩ :=
    buildRouteLoop_step (by decide) (by rfl) (by rfl) (by rfl)
      (show (if vspeed_of FLAG_WALK < (10 : ℚ) then vspeed_of FLAG_WALK else (10 : ℚ)) =
          25 / 18 by norm_num [vspeed_of, FLAG_WALK, FLAG_CAR, FLAG_BIKE])
      (by rfl) (by rfl)
  have b3 : buildRouteLoop demoGraph (vspeed_of FLAG_WALK) 0 [0, 0, 1, 0] [0, 0, 2, 0]
        8 0 0 ⟨(0 + (10 : ℚ)) + 10, (0 + (10 : ℚ) / (25 / 18)) + 10 / (25 / 18),
          ([] ++ [((1 : ℚ), (1 : ℚ))]) ++ [((0 : ℚ), (1 : ℚ))]⟩ =
      Except.ok (⟨(0 + (10 : ℚ)) + 10, (0 + (10 : ℚ) / (25 / 18)) + 10 / (25 / 18),
          ([] ++ [((1 : ℚ), (1 : ℚ))]) ++ [((0 : ℚ), (1 : ℚ))]⟩ : Route) :=
    buildRouteLoop_base rfl
  have b0 : build_route 10 0 2 [0, 0, 1, 0] [0, 0, 2, 0] demoGraph
        (vspeed_of FLAG_WALK) =
      Except.ok (some { distance := 20, time := 72 / 5, path := [(0, 1), (1, 1)] }) := by
    have hcomb := build_route_eval (by rfl) ((b1.trans b2).trans b3)
    rw [hcomb]
    norm_num
  have e4 : dijkstraLoop demoGraph FLAG_WALK edge_cost_distance (vspeed_of FLAG_WALK)
        0 2 10 8 ⟨[⟨2, 20⟩], [some 0, some 10, some 20, none], [0, 0, 1, 0], [0, 0, 2, 0]⟩ =
      Except.ok (some { distance := 20, time := 72 / 5, path := [(0, 1), (1, 1)] }) :=
    dijkstraLoop_found rfl rfl b0
  rw [e1, e2, e3, e4]

set_option maxRecDepth 10000 in
/-- §8 car/distance query A→C on the demo graph: the search pops A, relaxes
both A→B and A→D, pops D (cost 5), relaxes D→C, pops C (cost 10) ahead of B
and builds the A-D-C route of length 10. -/
lemma demo_car_eval : run_dijkstra 10 10 demoGraph 1 3 FLAG_CAR edge_cost_distance =
    Except.ok (some { distance := 10, time := 10, path := [(1, 0), (1, 1)] }) := by
  have e1 : run_dijkstra 10 10 demoGraph 1 3 FLAG_CAR edge_cost_distance =
      dijkstraLoop demoGraph FLAG_CAR edge_cost_distance (vspeed_of FLAG_CAR) 0 2 10 10
        ⟨[⟨0, 0⟩], [some 0, none, none, none], [0, 0, 0, 0], [0, 0, 0, 0]⟩ := rfl
  have e2 : dijkstraLoop demoGraph FLAG_CAR edge_cost_distance (vspeed_of FLAG_CAR)
        0 2 10 10 ⟨[⟨0, 0⟩], [some 0, none, none, none], [0, 0, 0, 0], [0, 0, 0, 0]⟩ =
      dijkstraLoop demoGraph FLAG_CAR edge_cost_distance (vspeed_of FLAG_CAR) 0 2 10 9
        ⟨[⟨3, 5⟩, ⟨1, 10⟩], [some 0, some 10, none, some 5], [0, 0, 0, 0], [0, 0, 0, 1]⟩ :=
    dijkstraLoop_step rfl (by decide) rfl rfl rfl rfl rfl
      (by norm_num [edge_cost_distance])
  have e3 : dijkstraLoop demoGraph FLAG_CAR edge_cost_distance (vspeed_of FLAG_CAR)
        0 2 10 9 ⟨[⟨3, 5⟩, ⟨1, 10⟩], [some 0, some 10, none, some 5],
          [0, 0, 0, 0], [0, 0, 0, 1]⟩ =
      dijkstraLoop demoGraph FLAG_CAR edge_cost_distance (vspeed_of FLAG_CAR) 0 2 10 8
        ⟨[⟨2, 10⟩, ⟨1, 10⟩], [some 0, some 10, some 10, some 5],
          [0, 0, 3, 0], [0, 0, 3, 1]⟩ :=
    dijkstraLoop_step rfl (by decide) rfl rfl rfl rfl rfl
      (by norm_num [edge_cost_distance])
  have b1 : buildRouteLoop demoGraph (vspeed_of FLAG_CAR) 0 [0, 0, 3, 0] [0, 0, 3, 1]
        10 2 3 ⟨0, 0, []⟩ =
      buildRouteLoop demoGraph (vspeed_of FLAG_CAR) 0 [0, 0, 3, 0] [0, 0, 3, 1]
        9 3 1 ⟨0 + (5 : ℚ), 0 + (5 : ℚ) / 1, [] ++ [((1 : ℚ), (1 : ℚ))]⟩ :=
    buildRouteLoop_step (by decide) (by rfl) (by rfl) (by rfl)
      (show (if vspeed_of FLAG_CAR < (1 : ℚ) then vspeed_of FLAG_CAR else (1 : ℚ)) =
          1 by norm_num [vspeed_of, FLAG_WALK, FLAG_CAR, FLAG_BIKE])
      (by rfl) (by rfl)
  have b2 : buildRouteLoop demoGraph (vspeed_of FLAG_CAR) 0 [0, 0, 3, 0] [0, 0, 3, 1]
        9 3 1 ⟨0 + (5 : ℚ), 0 + (5 : ℚ) / 1, [] ++ [((1 : ℚ), (1 : ℚ))]⟩ =
      buildRouteLoop demoGraph (vspeed_of FLAG_CAR) 0 [0, 0, 3, 0] [0, 0, 3, 1]
        8 0 0 ⟨(0 + (5 : ℚ)) + 5, (0 + (5 : ℚ) / 1) + 5 / 1,
          ([] ++ [((1 : ℚ), (1 : ℚ))]) ++ [((1 : ℚ), (0 : ℚ))]⟩ :=
    buildRouteLoop_step (by decide) (by rfl) (by rfl) (by rfl)
      (show (if vspeed_of FLAG_CAR < (1 : ℚ) then vspeed_of FLAG_CAR else (1 : ℚ)) =
          1 by norm_num [vspeed_of, FLAG_WALK, FLAG_CAR, FLAG_BIKE])
      (by rfl) (by rfl)
  have b3 : buildRouteLoop demoGraph (vspeed_of FLAG_CAR) 0 [0, 0, 3, 0] [0, 0, 3, 1]
        8 0 0 ⟨(0 + (5 : ℚ)) + 5, (0 + (5 : ℚ) / 1) + 5 / 1,
          ([] ++ [((1 : ℚ), (1 : ℚ))]) ++ [((1 : ℚ), (0 : ℚ))]⟩ =
      Except.ok (⟨(0 + (5 : ℚ)) + 5, (0 + (5 : ℚ) / 1) + 5 / 1,
          ([] ++ [((1 : ℚ), (1 : ℚ))]) ++ [((1 : ℚ), (0 : ℚ))]⟩ : Route) :=
    buildRouteLoop_base rfl
  have b0 : build_route 10 0 2 [0, 0, 3, 0] [0, 0, 3, 1] demoGraph
        (vspeed_of FLAG_CAR) =
      Except.ok (some { distance := 10, time := 10, path := [(1, 0), (1, 1)] }) := by
    have hcomb := build_route_eval (by rfl) ((b1.trans b2).trans b3)
    rw [hcomb]
    norm_num
  have e4 : dijkstraLoop demoGraph FLAG_CAR edge_cost_distance (vspeed_of FLAG_CAR)
        0 2 10 8 ⟨[⟨2, 10⟩, ⟨1, 10⟩], [some 0, some 10, some 10, some 5],
          [0, 0, 3, 0], [0, 0, 3, 1]⟩ =
      Except.ok (some { distance := 10, time := 10, path := [(1, 0), (1, 1)] }) :=
    dijkstraLoop_found rfl rfl b0
  rw [e1, e2, e3, e4]

/-- Every vehicle class maximum in `run_dijkstra` is positive. -/
lemma vspeed_of_pos (cons : Nat) : 0 < vspeed_of cons := by
  unfold vspeed_of
  split_ifs <;> norm_num

/-- Both selectable cost functions are non-negative on the edges of a
well-formed graph, at any positive vehicle maximum. -/
lemma cost_nonneg {d : RoutingData} (wf : WF d) {cf : RoutingEdge → ℚ → ℚ}
    (hcf : cf = edge_cost_distance ∨ cf = edge_cost_time) {v : ℚ} (hv : 0 < v) :
    ∀ e ∈ d.internal_edges, 0 ≤ cf e v := by
  intro e he
  rcases hcf with rfl | rfl
  · exact wf.lengths e he
  · unfold edge_cost_time
    dsimp only
    apply div_nonneg (wf.lengths e he)
    rcases lt_or_le v e.speed with h | h
    · rw [if_pos h]
      exact hv.le
    · rw [if_neg (not_lt.mpr h)]
      exact (wf.speeds e he).le

/-- Top-level form of the partial-correctness result: whenever `run_dijkstra`
returns a route on a well-formed graph with non-negative edge costs, the
route realizes a minimal-cost mode-permitted path between the resolved
endpoints. -/
lemma run_dijkstra_ok_some {d : RoutingData} {cons : Nat} {cf : RoutingEdge → ℚ → ℚ}
    {fuel bfuel : Nat} {s t : Int} {sn tn : OsmNode} {r : Route} (wf : WF d)
    (hcf : ∀ e ∈ d.internal_edges, 0 ≤ cf e (vspeed_of cons))
    (hs : mapGet? d.osm_nodes s = some sn)
    (ht : mapGet? d.osm_nodes t = some tn)
    (hrun : run_dijkstra fuel bfuel d s t cons cf = Except.ok (some r)) :
    ∃ p : List Nat, IsPath d cons sn.internal_id tn.internal_id p ∧
      (∀ q, IsPath d cons sn.internal_id tn.internal_id q →
        pathCost d cf (vspeed_of cons) p ≤ pathCost d cf (vspeed_of cons) q) ∧
      sn.internal_id ∉ pathNodes d p ∧
      (tn.internal_id ≠ sn.internal_id →
        (pathNodes d p).getLast? = some tn.internal_id) ∧
      (tn.internal_id = sn.internal_id → p = []) ∧
      r = { distance := sumLen d p, time := sumTime d (vspeed_of cons) p,
            path := posList d (pathNodes d p) } := by
  unfold run_dijkstra at hrun
  rw [hs, ht] at hrun
  dsimp only at hrun
  by_cases hlt : sn.internal_id < d.internal_nodes.length
  · rw [if_pos hlt] at hrun
    exact dijkstraLoop_ok_some wf hcf fuel _ [] bfuel r (inv_init hlt) hrun
  · rw [if_neg hlt] at hrun
    exact absurd hrun (by simp)

/-- The §8 demo graph satisfies the §3 invariants. -/
lemma demoGraph_WF : WF demoGraph :=
  ⟨by decide, by decide, by decide, by decide, by decide, by decide, by decide, by decide⟩

/-- C1: on any well-formed graph, for any mode and either cost model, a route
returned by `run_dijkstra` realizes a path from the resolved source to the
resolved target all of whose edges permit the requested mode, and its cost —
the sum of the selected per-edge cost function — is minimal among all such
paths; in particular, on the §8 demo graph, the walk/distance query A→C
returns the A-B-C path of length 20 and the car/distance query A→C returns
the A-D-C path of length 10. -/
theorem C1_shortest_path (d : RoutingData) (cons : Nat) (cf : RoutingEdge → ℚ → ℚ)
    (fuel bfuel : Nat) (s t : Int) (sn tn : OsmNode) (r : Route)
    (wf : WF d)
    (hcf : cf = edge_cost_distance ∨ cf = edge_cost_time)
    (hs : mapGet? d.osm_nodes s = some sn)
    (ht : mapGet? d.osm_nodes t = some tn)
    (hrun : run_dijkstra fuel bfuel d s t cons cf = Except.ok (some r)) :
    (∃ p : List Nat, IsPath d cons sn.internal_id tn.internal_id p ∧
      r = { distance := sumLen d p, time := sumTime d (vspeed_of cons) p,
            path := posList d (pathNodes d p) } ∧
      ∀ q, IsPath d cons sn.internal_id tn.internal_id q →
        pathCost d cf (vspeed_of cons) p ≤ pathCost d cf (vspeed_of cons) q) ∧
    run_dijkstra 10 10 demoGraph 1 3 FLAG_WALK edge_cost_distance =
      Except.ok (some { distance := 20, time := 72 / 5, path := [(0, 1), (1, 1)] }) ∧
    run_dijkstra 10 10 demoGraph 1 3 FLAG_CAR edge_cost_distance =
      Except.ok (some { distance := 10, time := 10, path := [(1, 0), (1, 1)] }) := by
  refine ⟨?_, demo_walk_eval, demo_car_eval⟩
  obtain ⟨p, hp, hopt, -, -, -, hr⟩ :=
    run_dijkstra_ok_some wf (cost_nonneg wf hcf (vspeed_of_pos cons)) hs ht hrun
  exact ⟨p, hp, hr, hopt⟩

/-- C1 witness: the claim instantiated on the §8 car/distance query, whose
run result is the A-D-C route of length 10. -/
theorem C1_shortest_path_witness :
    (∃ p : List Nat, IsPath demoGraph FLAG_CAR 0 2 p ∧
      ({ distance := 10, time := 10, path := [(1, 0), (1, 1)] } : Route) =
        { distance := sumLen demoGraph p,
          time := sumTime demoGraph (vspeed_of FLAG_CAR) p,
          path := posList demoGraph (pathNodes demoGraph p) } ∧
      ∀ q, IsPath demoGraph FLAG_CAR 0 2 q →
        pathCost demoGraph edge_cost_distance (vspeed_of FLAG_CAR) p ≤
          pathCost demoGraph edge_cost_distance (vspeed_of FLAG_CAR) q) ∧
    run_dijkstra 10 10 demoGraph 1 3 FLAG_WALK edge_cost_distance =
      Except.ok (some { distance := 20, time := 72 / 5, path := [(0, 1), (1, 1)] }) ∧
    run_dijkstra 10 10 demoGraph 1 3 FLAG_CAR edge_cost_distance =
      Except.ok (some { distance := 10, time := 10, path := [(1, 0), (1, 1)] }) :=
  C1_shortest_path demoGraph FLAG_CAR edge_cost_distance 10 10 1 3
    ⟨0, 0, 0⟩ ⟨2, 1, 1⟩ ⟨10, 10, [(1, 0), (1, 1)]⟩ demoGraph_WF (Or.inl rfl)
    rfl rfl demo_car_eval

/-- C7: for a successful query whose resolved endpoints differ, the returned
path runs source→target (the backward walk is reversed): it lists, in order,
the positions of the nodes after the source along the returned shortest
path, ending at the target, and the source node itself is never among the
visited nodes whose positions are emitted. -/
theorem C7_path_order (d : RoutingData) (cons : Nat) (cf : RoutingEdge → ℚ → ℚ)
    (fuel bfuel : Nat) (s t : Int) (sn tn : OsmNode) (r : Route)
    (wf : WF d)
    (hcf : cf = edge_cost_distance ∨ cf = edge_cost_time)
    (hs : mapGet? d.osm_nodes s = some sn)
    (ht : mapGet? d.osm_nodes t = some tn)
    (hrun : run_dijkstra fuel bfuel d s t cons cf = Except.ok (some r))
    (hne : tn.internal_id ≠ sn.internal_id) :
    ∃ p : List Nat, IsPath d cons sn.internal_id tn.internal_id p ∧
      r.path = posList d (pathNodes d p) ∧
      sn.internal_id ∉ pathNodes d p ∧
      (pathNodes d p).getLast? = some tn.internal_id := by
  obtain ⟨p, hp, -, hnot, hlast, -, hr⟩ :=
    run_dijkstra_ok_some wf (cost_nonneg wf hcf (vspeed_of_pos cons)) hs ht hrun
  exact ⟨p, hp, by rw [hr], hnot, hlast hne⟩

/-- C7 witness: the §8 car/distance query A→C, whose returned path visits D
then C and never A. -/
theorem C7_path_order_witness :
    ∃ p : List Nat, IsPath demoGraph FLAG_CAR 0 2 p ∧
      [((1 : ℚ), (0 : ℚ)), (1, 1)] = posList demoGraph (pathNodes demoGraph p) ∧
      0 ∉ pathNodes demoGraph p ∧
      (pathNodes demoGraph p).getLast? = some 2 :=
  C7_path_order demoGraph FLAG_CAR edge_cost_distance 10 10 1 3
    ⟨0, 0, 0⟩ ⟨2, 1, 1⟩ ⟨10, 10, [(1, 0), (1, 1)]⟩ demoGraph_WF (Or.inl rfl)
    rfl rfl demo_car_eval (by decide)

/-- A duplicate-free list of indices below `n` has at most `n` elements. -/
lemma settled_length_le {S : List Nat} {n : Nat} (hnd : S.Nodup)
    (hin : ∀ w ∈ S, w < n) : S.length ≤ n := by
  have hsub : S ⊆ List.range n := fun w hw => List.mem_range.mpr (hin w hw)
  have hsp := (List.subperm_of_subset hnd hsub).length_le
  simpa using hsp

/-- The main loop terminates without error: from any invariant state, with
fuel exceeding the measure `|heap| + (|nodes| - |settled|)·(|edges| + 1)` and
enough route-builder fuel, the loop returns `Except.ok` — either popping the
target and building a route, or emptying its queue and returning `none`. -/
lemma dijkstraLoop_terminates {d : RoutingData} {cons : Nat}
    {cf : RoutingEdge → ℚ → ℚ} {vspeed : ℚ} {src target : Nat} (wf : WF d)
    (hcf : ∀ e ∈ d.internal_edges, 0 ≤ cf e vspeed) :
    ∀ (fuel : Nat) (st : DijkState) (S : List Nat) (bfuel : Nat),
      DInv d cons cf vspeed src st S →
      st.heap.length +
        (d.internal_nodes.length - S.length) * (d.internal_edges.length + 1) < fuel →
      d.internal_nodes.length + 2 ≤ bfuel →
      ∃ res, dijkstraLoop d cons cf vspeed src target bfuel fuel st = Except.ok res := by
  intro fuel
  induction fuel with
  | zero =>
    intro st S bfuel inv hm hb
    omega
  | succ f ih =>
    intro st S bfuel inv hm hb
    rw [dijkstraLoop]
    cases hpop : popMin st.heap with
    | none => exact ⟨none, rfl⟩
    | some pr =>
      obtain ⟨m, rest⟩ := pr
      dsimp only
      have hlen : st.heap.length = rest.length + 1 := by
        have hpl := (popMin_perm hpop).length_eq
        simpa using hpl
      obtain ⟨c, hc, -⟩ := inv.heapSound m (popMin_mem hpop)
      by_cases htgt : m.node = target
      · rw [if_pos htgt]
        rw [htgt] at hc
        obtain ⟨p, -, -, -, -, -, hbr⟩ := build_route_spec wf inv hc
        have hSn : S.length ≤ d.internal_nodes.length :=
          settled_length_le inv.snodup (fun w hw => (inv.settledIn w hw).1)
        exact ⟨_, hbr bfuel (by omega)⟩
      · rw [if_neg htgt]
        have hidx : idx? st.dist m.node = Except.ok (some c) := idx?_eq_ok.mpr hc
        rw [hidx]
        dsimp only
        by_cases hstale : gtD m.cost (some c) = true
        · rw [if_pos hstale]
          refine ih _ S bfuel (inv_stale inv hpop hc hstale) ?_ hb
          have hre : ({ st with heap := rest } : DijkState).heap.length =
              rest.length := rfl
          rw [hre]
          generalize (d.internal_nodes.length - S.length) *
            (d.internal_edges.length + 1) = X at hm ⊢
          omega
        · rw [if_neg hstale]
          obtain ⟨a, b, slice, st', hoff, hslice, hrun, hinv', hheap, hnotin⟩ :=
            inv_expand wf hcf inv hpop hc hstale
          rw [hoff]
          dsimp only
          rw [hslice]
          dsimp only
          rw [hrun]
          dsimp only
          have hmlt : m.node < d.internal_nodes.length := by
            have hl := lt_of_get?_eq_some hc
            rw [inv.distLen] at hl
            exact hl
          have hS1 : S.length + 1 ≤ d.internal_nodes.length := by
            have hcons := settled_length_le (S := m.node :: S)
              (List.nodup_cons.mpr ⟨hnotin, inv.snodup⟩)
              (by
                intro w hw
                rcases List.mem_cons.mp hw with rfl | hw
                · exact hmlt
                · exact (inv.settledIn w hw).1)
            simpa using hcons
          have hba : b - a ≤ d.internal_edges.length := by
            obtain ⟨a', b', hga, hgb, -, hok⟩ :=
              offset_lookup_ok d m.node wf.offlen wf.offmono hmlt
            have hpr : (a, b) = (a', b') := by
              have := hoff.symm.trans hok
              exact Except.ok.inj this
            have hbb : b = b' := congrArg Prod.snd hpr
            subst hbb
            have hble := off_le_last wf (show m.node + 1 ≤ d.internal_nodes.length by
              omega) hgb
            omega
          refine ih st' (S ++ [m.node]) bfuel hinv' ?_ hb
          have hlapp : (S ++ [m.node]).length = S.length + 1 := by simp
          rw [hlapp]
          have hprod : (d.internal_nodes.length - S.length) *
              (d.internal_edges.length + 1) =
              (d.internal_nodes.length - (S.length + 1)) *
                (d.internal_edges.length + 1) + (d.internal_edges.length + 1) := by
            have h1 : d.internal_nodes.length - S.length =
                (d.internal_nodes.length - (S.length + 1)) + 1 := by omega
            rw [h1, Nat.succ_mul]
          rw [hprod] at hm
          generalize (d.internal_nodes.length - (S.length + 1)) *
            (d.internal_edges.length + 1) = X at hm ⊢
          omega

/-- Every edge index on a mode-permitted path resolves to an edge whose
constraints bitmask permits the requested mode. -/
lemma IsPath_mem_permitted {d : RoutingData} {cons : Nat} :
    ∀ {p : List Nat} {u v : Nat}, IsPath d cons u v p →
      ∀ i ∈ p, ∃ e, d.internal_edges.get? i = some e ∧ cons &&& e.constraints ≠ 0 := by
  intro p
  induction p with
  | nil =>
    intro u v hp i hi
    exact absurd hi (List.not_mem_nil i)
  | cons j rest ih =>
    intro u v hp i hi
    obtain ⟨e, he, -, hperm, hrest⟩ := hp
    rcases List.mem_cons.mp hi with rfl | hi
    · exact ⟨e, he, hperm⟩
    · exact ih hrest i hi

/-- `run_dijkstra` with fuel `|nodes|·(|edges| + 1) + 2` and route-builder
fuel `|nodes| + 2` returns normally on any well-formed graph with resolvable
endpoints and non-negative edge costs. -/
lemma run_dijkstra_terminates {d : RoutingData} {cons : Nat}
    {cf : RoutingEdge → ℚ → ℚ} {s t : Int} {sn tn : OsmNode} (wf : WF d)
    (hcf : ∀ e ∈ d.internal_edges, 0 ≤ cf e (vspeed_of cons))
    (hs : mapGet? d.osm_nodes s = some sn)
    (ht : mapGet? d.osm_nodes t = some tn) :
    ∃ res, run_dijkstra (d.internal_nodes.length * (d.internal_edges.length + 1) + 2)
      (d.internal_nodes.length + 2) d s t cons cf = Except.ok res := by
  have hlt : sn.internal_id < d.internal_nodes.length := wf_resolve_lt wf hs
  have hrw : run_dijkstra (d.internal_nodes.length * (d.internal_edges.length + 1) + 2)
      (d.internal_nodes.length + 2) d s t cons cf =
      dijkstraLoop d cons cf (vspeed_of cons) sn.internal_id tn.internal_id
        (d.internal_nodes.length + 2)
        (d.internal_nodes.length * (d.internal_edges.length + 1) + 2)
        { heap := [{ node := sn.internal_id, cost := 0 }],
          dist := (List.replicate d.internal_nodes.length
            (none : Option ℚ)).set sn.internal_id (some 0),
          pred := List.replicate d.internal_nodes.length 0,
          prede := List.replicate d.internal_nodes.length 0 } := by
    unfold run_dijkstra
    rw [hs, ht]
    dsimp only
    rw [if_pos hlt]
  obtain ⟨res, hres⟩ :=
    @dijkstraLoop_terminates d cons cf (vspeed_of cons) sn.internal_id tn.internal_id
      wf hcf (d.internal_nodes.length * (d.internal_edges.length + 1) + 2)
      { heap := [{ node := sn.internal_id, cost := 0 }],
        dist := (List.replicate d.internal_nodes.length
          (none : Option ℚ)).set sn.internal_id (some 0),
        pred := List.replicate d.internal_nodes.length 0,
        prede := List.replicate d.internal_nodes.length 0 }
      [] (d.internal_nodes.length + 2) (inv_init hlt)
      (by
        show 1 + (d.internal_nodes.length - 0) * (d.internal_edges.length + 1) <
          d.internal_nodes.length * (d.internal_edges.length + 1) + 2
        rw [Nat.sub_zero]
        generalize d.internal_nodes.length * (d.internal_edges.length + 1) = X
        omega)
      (le_refl _)
  rw [hrw]
  exact ⟨res, hres⟩

/-- When no mode-permitted source-to-target path exists at all, the
terminated search must return the no-route result. -/
lemma run_dijkstra_no_path {d : RoutingData} {cons : Nat}
    {cf : RoutingEdge → ℚ → ℚ} {s t : Int} {sn tn : OsmNode} (wf : WF d)
    (hcf2 : cf = edge_cost_distance ∨ cf = edge_cost_time)
    (hs : mapGet? d.osm_nodes s = some sn)
    (ht : mapGet? d.osm_nodes t = some tn)
    (hnp : ∀ p, ¬ IsPath d cons sn.internal_id tn.internal_id p) :
    run_dijkstra (d.internal_nodes.length * (d.internal_edges.length + 1) + 2)
      (d.internal_nodes.length + 2) d s t cons cf = Except.ok none := by
  have hcf := cost_nonneg wf hcf2 (vspeed_of_pos cons)
  obtain ⟨res, hres⟩ := run_dijkstra_terminates wf hcf hs ht
  cases res with
  | none => exact hres
  | some r =>
    obtain ⟨p, hp, -, -, -, -, -⟩ := run_dijkstra_ok_some wf hcf hs ht hres
    exact absurd hp (hnp p)

/-- C8: with fuel `|nodes|·(|edges| + 1) + 2` — an upper bound on the number
of loop iterations on any well-formed graph — the search terminates normally:
either the queue empties and the result is `none`, or the target is popped
and a route is returned; and when the target is unreachable from the source
under the requested mode, the result is the no-route `none`, not an error
(and in particular not the fuel-exhaustion error of a non-terminating loop). -/
theorem C8_terminates (d : RoutingData) (cons : Nat) (cf : RoutingEdge → ℚ → ℚ)
    (s t : Int) (sn tn : OsmNode) (wf : WF d)
    (hcf : cf = edge_cost_distance ∨ cf = edge_cost_time)
    (hs : mapGet? d.osm_nodes s = some sn)
    (ht : mapGet? d.osm_nodes t = some tn) :
    (run_dijkstra (d.internal_nodes.length * (d.internal_edges.length + 1) + 2)
        (d.internal_nodes.length + 2) d s t cons cf = Except.ok none ∨
      ∃ r, run_dijkstra (d.internal_nodes.length * (d.internal_edges.length + 1) + 2)
        (d.internal_nodes.length + 2) d s t cons cf = Except.ok (some r)) ∧
    ((∀ p, ¬ IsPath d cons sn.internal_id tn.internal_id p) →
      run_dijkstra (d.internal_nodes.length * (d.internal_edges.length + 1) + 2)
        (d.internal_nodes.length + 2) d s t cons cf = Except.ok none) := by
  constructor
  · obtain ⟨res, hres⟩ :=
      run_dijkstra_terminates wf (cost_nonneg wf hcf (vspeed_of_pos cons)) hs ht
    cases res with
    | none => exact Or.inl hres
    | some r => exact Or.inr ⟨r, hres⟩
  · exact run_dijkstra_no_path wf hcf hs ht

/-- C8 witness: the walk query from C — which has no outgoing edges — to A on
the §8 demo graph, at the sufficient fuel bounds 22 and 6. -/
theorem C8_terminates_witness :
    (run_dijkstra 22 6 demoGraph 3 1 FLAG_WALK edge_cost_distance = Except.ok none ∨
      ∃ r, run_dijkstra 22 6 demoGraph 3 1 FLAG_WALK edge_cost_distance =
        Except.ok (some r)) ∧
    ((∀ p, ¬ IsPath demoGraph FLAG_WALK 2 0 p) →
      run_dijkstra 22 6 demoGraph 3 1 FLAG_WALK edge_cost_distance =
        Except.ok none) :=
  C8_terminates demoGraph FLAG_WALK edge_cost_distance 3 1 ⟨2, 1, 1⟩ ⟨0, 0, 0⟩
    demoGraph_WF (Or.inl rfl) rfl rfl

/-- C4: on any well-formed graph, (a) every returned route realizes a path
every one of whose edges has a constraints bitmask permitting the requested
mode — a forbidden edge is never present — and (b) when every source-to-target
path requires a forbidden edge (no mode-permitted path exists), the
terminated query returns the no-route result `none`. -/
theorem C4_mode_filtering (d : RoutingData) (cons : Nat) (cf : RoutingEdge → ℚ → ℚ)
    (s t : Int) (sn tn : OsmNode) (wf : WF d)
    (hcf : cf = edge_cost_distance ∨ cf = edge_cost_time)
    (hs : mapGet? d.osm_nodes s = some sn)
    (ht : mapGet? d.osm_nodes t = some tn) :
    (∀ fuel bfuel r, run_dijkstra fuel bfuel d s t cons cf = Except.ok (some r) →
      ∃ p : List Nat, IsPath d cons sn.internal_id tn.internal_id p ∧
        (∀ i ∈ p, ∃ e, d.internal_edges.get? i = some e ∧
          cons &&& e.constraints ≠ 0) ∧
        r.path = posList d (pathNodes d p)) ∧
    ((∀ p, ¬ IsPath d cons sn.internal_id tn.internal_id p) →
      run_dijkstra (d.internal_nodes.length * (d.internal_edges.length + 1) + 2)
        (d.internal_nodes.length + 2) d s t cons cf = Except.ok none) := by
  constructor
  · intro fuel bfuel r hrun
    obtain ⟨p, hp, -, -, -, -, hr⟩ :=
      run_dijkstra_ok_some wf (cost_nonneg wf hcf (vspeed_of_pos cons)) hs ht hrun
    exact ⟨p, hp, IsPath_mem_permitted hp, by rw [hr]⟩
  · exact run_dijkstra_no_path wf hcf hs ht

/-- C4 witness: the walk query from D to C on the §8 demo graph — D's only
outgoing edge is car-only, so no walk path exists and the query returns
`none`. -/
theorem C4_mode_filtering_witness :
    (∀ fuel bfuel r,
      run_dijkstra fuel bfuel demoGraph 4 3 FLAG_WALK edge_cost_distance =
        Except.ok (some r) →
      ∃ p : List Nat, IsPath demoGraph FLAG_WALK 3 2 p ∧
        (∀ i ∈ p, ∃ e, demoGraph.internal_edges.get? i = some e ∧
          FLAG_WALK &&& e.constraints ≠ 0) ∧
        r.path = posList demoGraph (pathNodes demoGraph p)) ∧
    run_dijkstra 22 6 demoGraph 4 3 FLAG_WALK edge_cost_distance =
      Except.ok none := by
  have hC4 := C4_mode_filtering demoGraph FLAG_WALK edge_cost_distance 4 3
    ⟨3, 1, 0⟩ ⟨2, 1, 1⟩ demoGraph_WF (Or.inl rfl) rfl rfl
  have hnp : ∀ p, ¬ IsPath demoGraph FLAG_WALK 3 2 p := by
    intro p hp
    cases p with
    | nil => exact (by decide : ¬ (3 = 2)) hp
    | cons i rest =>
      obtain ⟨e, he, hsl, hperm, -⟩ := hp
      obtain ⟨a, b, ha, hb, hai, hib⟩ := hsl
      have ha3 : a = 3 := by
        have hsome : some (3 : Nat) = some a := by rw [← ha]; rfl
        exact (Option.some.inj hsome).symm
      have hb4 : b = 4 := by
        have hsome : some (4 : Nat) = some b := by rw [← hb]; rfl
        exact (Option.some.inj hsome).symm
      subst ha3
      subst hb4
      have hi3 : i = 3 := by omega
      subst hi3
      have he' : e = ⟨2, 5, 1, 1⟩ := by
        have hsome : some e = some (⟨2, 5, 1, 1⟩ : RoutingEdge) := by rw [← he]; rfl
        exact Option.some.inj hsome
      subst he'
      exact hperm (by decide)
  exact ⟨hC4.1, hC4.2 hnp⟩
